import Mathlib

/-!
# Geojson overlay builder and renderer (`lib/components/Geojson.js`)

A shallow embedding of the component: the pure overlay builder `makeOverlays`
with its helpers, and the render pass and polygon tap handler of the `Geojson`
function component.

JavaScript values the code only carries around (coordinates, colours, widths)
are kept in `JSValue`; an operation that raises a `TypeError` in JavaScript
returns `Except.error` here.
-/

namespace RNMaps

/-! ## Data model -/

/-- Primitive JavaScript values found in coordinates and style properties. The
code never computes with a number (it moves it, tests its truthiness or passes it
to `Number`), so an integer payload stands for it. -/
inductive JSValue
  | undefined
  | null
  | bool (b : Bool)
  | number (n : Int)
  | nan
  | string (s : String)
  deriving DecidableEq

/-- A GeoJSON position `[longitude, latitude, ...]`: an array of values. -/
abbrev Position := List JSValue

/-- The six geometry types `makeOverlays` and `makeCoordinates` test for. -/
def supportedTypes : List String :=
  ["Point", "MultiPoint", "LineString", "MultiLineString", "Polygon", "MultiPolygon"]

/-- A feature's `geometry`: its `type` with the `coordinates` nesting that type
declares (the specification's data model; what the code does on another nesting
is left undefined there). `Unsupported` is a geometry of any other type, for
instance `GeometryCollection`. -/
inductive Geometry
  | Point (coordinates : Position)
  | MultiPoint (coordinates : List Position)
  | LineString (coordinates : List Position)
  | MultiLineString (coordinates : List (List Position))
  | Polygon (coordinates : List (List Position))
  | MultiPolygon (coordinates : List (List (List Position)))
  | Unsupported (type : String) (h : type ∉ supportedTypes)
  deriving DecidableEq

/-- The `type` string of a geometry. -/
def Geometry.type : Geometry → String
  | .Point _ => "Point"
  | .MultiPoint _ => "MultiPoint"
  | .LineString _ => "LineString"
  | .MultiLineString _ => "MultiLineString"
  | .Polygon _ => "Polygon"
  | .MultiPolygon _ => "MultiPolygon"
  | .Unsupported t _ => t

/-- A feature's `properties`, read by the renderer: optional style overrides and
an optional tap callback (identified by a number). An absent key is
`JSValue.undefined`, an absent `onPress` is `none`. -/
structure Properties where
  tappable : JSValue := .undefined
  fillColor : JSValue := .undefined
  strokeColor : JSValue := .undefined
  strokeWidth : JSValue := .undefined
  highlightedFillColor : JSValue := .undefined
  highlightedStrokeColor : JSValue := .undefined
  highlightedStrokeWidth : JSValue := .undefined
  onPress : Option Nat := none
  deriving DecidableEq

/-- A GeoJSON feature; `geometry` may be absent. -/
structure Feature where
  geometry : Option Geometry
  properties : Properties := {}
  deriving DecidableEq

/-- The values built from coordinates: `{latitude, longitude}` records and
(nested) arrays of them; `undefined` is what indexing past an array gives. -/
inductive Coordinates
  | undefined
  | latLng (latitude longitude : JSValue)
  | array (items : List Coordinates)

mutual
/-- Decidable equality of coordinate values. -/
def Coordinates.decEq : (a b : Coordinates) → Decidable (a = b)
  | .undefined, .undefined => isTrue rfl
  | .undefined, .latLng _ _ => isFalse (by intro h; cases h)
  | .undefined, .array _ => isFalse (by intro h; cases h)
  | .latLng _ _, .undefined => isFalse (by intro h; cases h)
  | .latLng a b, .latLng c d =>
    if h : a = c ∧ b = d then isTrue (by rw [h.1, h.2])
    else isFalse (by intro e; cases e; exact h ⟨rfl, rfl⟩)
  | .latLng _ _, .array _ => isFalse (by intro h; cases h)
  | .array _, .undefined => isFalse (by intro h; cases h)
  | .array _, .latLng _ _ => isFalse (by intro h; cases h)
  | .array xs, .array ys =>
    match Coordinates.decEqList xs ys with
    | isTrue h => isTrue (by rw [h])
    | isFalse h => isFalse (by intro e; cases e; exact h rfl)
/-- Decidable equality of arrays of coordinate values. -/
def Coordinates.decEqList : (xs ys : List Coordinates) → Decidable (xs = ys)
  | [], [] => isTrue rfl
  | [], _ :: _ => isFalse (by intro h; cases h)
  | _ :: _, [] => isFalse (by intro h; cases h)
  | x :: xs, y :: ys =>
    match Coordinates.decEq x y, Coordinates.decEqList xs ys with
    | isTrue h, isTrue h2 => isTrue (by rw [h, h2])
    | isFalse h, _ => isFalse (by intro e; cases e; exact h rfl)
    | _, isFalse h => isFalse (by intro e; cases e; exact h rfl)
end

instance : DecidableEq Coordinates := Coordinates.decEq

/-- An overlay record. `holes = none` and `type = none` mean the key is absent. -/
structure Overlay where
  feature : Feature
  coordinates : Coordinates := .undefined
  holes : Option Coordinates := none
  type : Option String := none
  deriving DecidableEq

/-- A JavaScript exception. -/
inductive JSError
  | typeError
  deriving DecidableEq

instance {ε α : Type} [DecidableEq ε] [DecidableEq α] : DecidableEq (Except ε α)
  | .ok a, .ok b => if h : a = b then isTrue (by rw [h]) else isFalse (by intro e; cases e; exact h rfl)
  | .error a, .error b =>
    if h : a = b then isTrue (by rw [h]) else isFalse (by intro e; cases e; exact h rfl)
  | .ok _, .error _ => isFalse (by intro e; cases e)
  | .error _, .ok _ => isFalse (by intro e; cases e)

/-! ## Overlay builder (source lines 4-94) -/

/-- Source line 73: `c => ({ latitude: c[1], longitude: c[0] })`. Indexing an
array past its end gives `undefined`. -/
def makePoint (c : Position) : Coordinates :=
  .latLng (c.getD 1 .undefined) (c.getD 0 .undefined)

/-- Source line 75: `l => l.map(makePoint)`. -/
def makeLine (l : List Position) : Coordinates :=
  .array (l.map makePoint)

/-- Source lines 77-94. Reading `g.type` of an absent geometry is a `TypeError`. -/
def makeCoordinates (feature : Feature) : Except JSError Coordinates :=
  match feature.geometry with
  | none => .error .typeError
  | some (.Point coordinates) => .ok (.array [makePoint coordinates])
  | some (.MultiPoint coordinates) => .ok (.array (coordinates.map makePoint))
  | some (.LineString coordinates) => .ok (.array [makeLine coordinates])
  | some (.MultiLineString coordinates) => .ok (.array (coordinates.map makeLine))
  | some (.Polygon coordinates) => .ok (.array (coordinates.map makeLine))
  | some (.MultiPolygon coordinates) =>
    .ok (.array (coordinates.map fun p => .array (p.map makeLine)))
  | some (.Unsupported _ _) => .ok (.array [])

/-- Source lines 55-71. `coordinates[0]` is the first item of an array (or
`undefined` for an empty one), `undefined` on a record, and a `TypeError` on
`undefined`; `coordinates.length > 1` is false on a record; `slice(1)` drops the
first item. -/
def makeOverlay (coordinates : Coordinates) (feature : Feature) : Except JSError Overlay :=
  match feature.geometry with
  | none => .error .typeError
  | some g =>
    if g.type = "Polygon" ∨ g.type = "MultiPolygon" then
      match coordinates with
      | .undefined => .error .typeError
      | .latLng _ _ => .ok { feature := feature, coordinates := .undefined }
      | .array items =>
        .ok { feature := feature
              coordinates := items.headD .undefined
              holes := if items.length > 1 then some (.array (items.drop 1)) else none }
    else
      .ok { feature := feature, coordinates := coordinates }

/-- An argument of `Array.prototype.concat`: an array is spliced in, any other
value is appended as one element. -/
inductive ConcatArg (α : Type)
  | item (x : α)
  | array (xs : List α)

/-- Source line 53: `(prev, curr) => prev.concat(curr)`. -/
def flatten {α : Type} (prev : List α) (curr : ConcatArg α) : List α :=
  match curr with
  | .item x => prev ++ [x]
  | .array xs => prev ++ xs

/-- Filter callback of source lines 7-9. -/
def isPointFamily (f : Feature) : Bool :=
  match f.geometry with
  | none => false
  | some g => g.type == "Point" || g.type == "MultiPoint"

/-- Filter callback of source lines 21-24. -/
def isLineFamily (f : Feature) : Bool :=
  match f.geometry with
  | none => false
  | some g => g.type == "LineString" || g.type == "MultiLineString"

/-- Filter callback of source line 35. -/
def isMultiPolygon (f : Feature) : Bool :=
  match f.geometry with
  | none => false
  | some g => g.type == "MultiPolygon"

/-- Filter callback of source line 44. -/
def isPolygon (f : Feature) : Bool :=
  match f.geometry with
  | none => false
  | some g => g.type == "Polygon"

/-- Map callback of source lines 11-15, 26-30 and 36-40:
`feature => makeCoordinates(feature).map(c => makeOverlay(c, feature))`.
Calling `.map` on a value that is not an array is a `TypeError`. -/
def featureOverlays (feature : Feature) : Except JSError (List Overlay) :=
  match makeCoordinates feature with
  | .error e => .error e
  | .ok (.array items) => items.mapM fun coordinates => makeOverlay coordinates feature
  | .ok _ => .error .typeError

/-- Map callback of source line 45:
`feature => makeOverlay(makeCoordinates(feature), feature)`. -/
def polygonOverlay (feature : Feature) : Except JSError Overlay :=
  match makeCoordinates feature with
  | .error e => .error e
  | .ok coordinates => makeOverlay coordinates feature

/-- Map callbacks of source lines 17, 32 and 48: `overlay => ({ ...overlay, type })`. -/
def withType (type : String) (overlay : Overlay) : Overlay :=
  { overlay with type := some type }

/-- Source lines 4-51. -/
def makeOverlays (features : List Feature) : Except JSError (List Overlay) := do
  let points ← (features.filter isPointFamily).mapM featureOverlays
  let points := ((points.map ConcatArg.array).foldl flatten []).map (withType "point")
  let lines ← (features.filter isLineFamily).mapM featureOverlays
  let lines := ((lines.map ConcatArg.array).foldl flatten []).map (withType "polyline")
  let multipolygons ← (features.filter isMultiPolygon).mapM featureOverlays
  let multipolygons := (multipolygons.map ConcatArg.array).foldl flatten []
  let polygons ← (features.filter isPolygon).mapM polygonOverlay
  let polygons :=
    (((polygons.map ConcatArg.item).foldl flatten []) ++ multipolygons).map (withType "polygon")
  return (points ++ lines) ++ polygons

/-! ## Renderer (source lines 96-166) -/

/-- JavaScript truthiness. -/
def JSValue.truthy : JSValue → Bool
  | .undefined => false
  | .null => false
  | .bool b => b
  | .number n => n != 0
  | .nan => false
  | .string s => s != ""

/-- `a || b`. -/
def JSValue.or (a b : JSValue) : JSValue :=
  if a.truthy then a else b

/-- `a !== b` on primitive values (`NaN` differs from itself). -/
def JSValue.strictNe (a b : JSValue) : Bool :=
  a == .nan || a != b

/-- A destructuring default `{ key = d }`: `d` replaces an `undefined` value only. -/
def JSValue.withDefault (v d : JSValue) : JSValue :=
  if v = .undefined then d else v

/-- `Number(v)`; `parse` is the numeric value JavaScript gives a string. -/
def JSValue.toNumber (parse : String → JSValue) : JSValue → JSValue
  | .undefined => .nan
  | .null => .number 0
  | .bool b => .number (if b then 1 else 0)
  | .number n => .number n
  | .nan => .nan
  | .string s => parse s

/-- The component's props besides `geojson`. -/
structure Props where
  color : JSValue := .undefined
  strokeColor : JSValue := .undefined
  fillColor : JSValue := .undefined
  strokeWidth : JSValue := .undefined
  deriving DecidableEq

/-- The style attributes of a polygon primitive. -/
structure Style where
  fillColor : JSValue
  strokeColor : JSValue
  strokeWidth : JSValue
  deriving DecidableEq

/-- The element the map callback of source lines 104-163 returns for an overlay;
`key` is the overlay's index. -/
inductive Primitive
  | marker (key : Nat) (coordinate : Coordinates) (pinColor : JSValue)
  | polygon (key : Nat) (coordinates : Coordinates) (holes : Option Coordinates)
      (style : Style) (tappable : JSValue)
  | polyline (key : Nat) (coordinates : Coordinates) (strokeColor strokeWidth : JSValue)
  deriving DecidableEq

/-- Source line 116: the locals destructured from `overlay.feature.properties`,
with their defaults (`onPress = none` stands for the default `() => {}`). -/
def destructure (p : Properties) : Properties :=
  { tappable := p.tappable.withDefault (.bool false)
    fillColor := p.fillColor
    strokeColor := p.strokeColor
    strokeWidth := p.strokeWidth
    highlightedFillColor := p.highlightedFillColor.withDefault p.fillColor
    highlightedStrokeColor := p.highlightedStrokeColor.withDefault p.fillColor
    highlightedStrokeWidth := p.highlightedStrokeWidth.withDefault p.strokeWidth
    onPress := p.onPress }

/-- Source lines 123-125: the style attributes a polygon is rendered with. -/
def renderedStyle (parse : String → JSValue) (props : Props) (p : Properties) : Style :=
  { strokeColor := (destructure p).strokeColor.or props.strokeColor
    fillColor := (destructure p).fillColor.or props.fillColor
    strokeWidth :=
      if (destructure p).strokeWidth.truthy then (destructure p).strokeWidth.toNumber parse
      else props.strokeWidth }

/-- Source lines 104-163: the map callback, for the overlay at `index`. An
overlay of no known type gives `undefined` (`none`). -/
def renderOverlay (parse : String → JSValue) (props : Props) (overlay : Overlay) (index : Nat) :
    Option Primitive :=
  if overlay.type = some "point" then
    some (.marker index overlay.coordinates props.color)
  else if overlay.type = some "polygon" then
    some (.polygon index overlay.coordinates overlay.holes
      (renderedStyle parse props overlay.feature.properties)
      (destructure overlay.feature.properties).tappable)
  else if overlay.type = some "polyline" then
    some (.polyline index overlay.coordinates props.strokeColor props.strokeWidth)
  else
    none

/-- The children of the fragment: `overlays.map(...)` from index `index` on. -/
def renderFrom (parse : String → JSValue) (props : Props) (index : Nat) :
    List Overlay → List (Option Primitive)
  | [] => []
  | overlay :: rest => renderOverlay parse props overlay index :: renderFrom parse props (index + 1) rest

/-- Source lines 98 and 119: `overlayRefs` after the children are mounted. Each
polygon element's `ref` callback pushes its instance, in child order; an instance
is identified by the key of its element. -/
def attachRefs : List (Option Primitive) → List Nat
  | [] => []
  | some (.polygon key _ _ _ _) :: rest => key :: attachRefs rest
  | _ :: rest => attachRefs rest

/-- What one render pass of the component produces. -/
structure Rendered where
  overlays : List Overlay
  children : List (Option Primitive)
  overlayRefs : List Nat
  deriving DecidableEq

/-- Source lines 96-166: one render pass of the component. -/
def Geojson (parse : String → JSValue) (props : Props) (features : List Feature) :
    Except JSError Rendered :=
  match makeOverlays features with
  | .error e => .error e
  | .ok overlays =>
    .ok { overlays := overlays
          children := renderFrom parse props 0 overlays
          overlayRefs := attachRefs (renderFrom parse props 0 overlays) }

/-- An observable action of the tap handler. -/
inductive Effect
  | setNativeProps (handle : Nat) (style : Style)
  | setSelectedIndex (value : Option Nat)
  | onPress (callback : Option Nat) (argument : Option Properties)
  deriving DecidableEq

/-- The actions a piece of the handler performed, and the exception that ended
it, if any. -/
structure Outcome where
  effects : List Effect := []
  error : Option JSError := none
  deriving DecidableEq

/-- Sequencing of statements: an exception skips what follows. -/
def Outcome.andThen (a b : Outcome) : Outcome :=
  match a.error with
  | some e => { effects := a.effects, error := some e }
  | none => { effects := a.effects ++ b.effects, error := b.error }

/-- `overlayRefs[i].setNativeProps(style)`: a `TypeError` when entry `i` is
`undefined`. -/
def setNativeProps (overlayRefs : List Nat) (i : Nat) (style : Style) : Outcome :=
  match overlayRefs[i]? with
  | none => { error := some .typeError }
  | some handle => { effects := [.setNativeProps handle style] }

/-- Source lines 128-134: un-highlight the last selected polygon. -/
def restoreStep (props : Props) (overlays : List Overlay) (overlayRefs : List Nat)
    (selectedIndex : Option Nat) : Outcome :=
  match selectedIndex with
  | none => {}
  | some s =>
    match overlays[s]? with
    | none => { error := some .typeError }
    | some selected =>
      let fillColor := selected.feature.properties.fillColor
      let highlightedFillColor :=
        selected.feature.properties.highlightedFillColor.withDefault fillColor
      if fillColor.truthy && highlightedFillColor.strictNe fillColor then
        setNativeProps overlayRefs s
          { fillColor := fillColor, strokeColor := props.strokeColor, strokeWidth := props.strokeWidth }
      else {}

/-- Source lines 135-142: select and highlight the tapped polygon. -/
def selectStep (overlays : List Overlay) (overlayRefs : List Nat) (selectedIndex : Option Nat)
    (overlay : Overlay) (index : Nat) : Outcome :=
  let locals := destructure overlay.feature.properties
  if selectedIndex = none ∨ selectedIndex ≠ some index then
    Outcome.andThen { effects := [.setSelectedIndex (some index)] }
      (if locals.fillColor.truthy && locals.highlightedFillColor.strictNe locals.fillColor then
        Outcome.andThen
          (setNativeProps overlayRefs index
            { fillColor := locals.highlightedFillColor
              strokeColor := locals.highlightedStrokeColor
              strokeWidth := locals.highlightedStrokeWidth })
          (match overlays[index]? with
            | none => { error := some .typeError }
            | some tapped =>
              { effects := [.onPress locals.onPress (some tapped.feature.properties)] })
      else {})
  else {}

/-- Source lines 143-147: tapping the selected polygon cancels the selection. -/
def deselectStep (selectedIndex : Option Nat) (overlay : Overlay) (index : Nat) : Outcome :=
  if selectedIndex ≠ none ∧ selectedIndex = some index then
    { effects := [.setSelectedIndex none,
        .onPress (destructure overlay.feature.properties).onPress none] }
  else {}

/-- Source lines 127-149: the `onPress` handler of the polygon rendered for
`overlay` at `index`, closed over the render pass's `overlays`, `overlayRefs`,
`selectedIndex` and `props`. -/
def onPress (props : Props) (overlays : List Overlay) (overlayRefs : List Nat)
    (selectedIndex : Option Nat) (overlay : Overlay) (index : Nat) : Outcome :=
  (restoreStep props overlays overlayRefs selectedIndex).andThen
    ((selectStep overlays overlayRefs selectedIndex overlay index).andThen
      (deselectStep selectedIndex overlay index))

/-- The value of `selectedIndex` at the next render: the argument of the last
`setSelectedIndex` call, if there was one. -/
def nextSelectedIndex (selectedIndex : Option Nat) : List Effect → Option Nat
  | [] => selectedIndex
  | .setSelectedIndex value :: rest => nextSelectedIndex value rest
  | _ :: rest => nextSelectedIndex selectedIndex rest

/-- A tap on the primitive of overlay `index` in a component rendered from
`features` with selection `selectedIndex`. Only polygon primitives carry a
handler: `none` when there is no polygon at `index`. -/
def tap (parse : String → JSValue) (props : Props) (features : List Feature)
    (selectedIndex : Option Nat) (index : Nat) : Option Outcome :=
  match Geojson parse props features with
  | .error _ => none
  | .ok rendered =>
    match rendered.overlays[index]? with
    | none => none
    | some overlay =>
      if overlay.type = some "polygon" then
        some (onPress props rendered.overlays rendered.overlayRefs selectedIndex overlay index)
      else none

/-- The highlight test of source lines 131 and 137 on a feature's properties:
`fillColor && highlightedFillColor !== fillColor`. -/
def highlightable (p : Properties) : Bool :=
  (destructure p).fillColor.truthy
    && (destructure p).highlightedFillColor.strictNe (destructure p).fillColor

/-- The state of a mounted component: the `selectedIndex` state variable (source
line 100) and the style attributes each child shows natively, by key (`none` for
a child that is no polygon). -/
structure View where
  selectedIndex : Option Nat
  styles : List (Option Style)
  deriving DecidableEq

/-- The style attributes a freshly mounted child shows. -/
def nativeStyle : Option Primitive → Option Style
  | some (.polygon _ _ _ style _) => some style
  | _ => none

/-- What an action of the tap handler does to the native styles:
`setNativeProps` overwrites the three attributes of the primitive behind the
handle. -/
def applyEffect (styles : List (Option Style)) : Effect → List (Option Style)
  | .setNativeProps handle style => styles.set handle (some style)
  | _ => styles

/-- The component after its first render: nothing selected (`useState(null)`),
every polygon at the style it was rendered with. -/
def mount (parse : String → JSValue) (props : Props) (features : List Feature) : View :=
  match Geojson parse props features with
  | .error _ => { selectedIndex := none, styles := [] }
  | .ok rendered => { selectedIndex := none, styles := rendered.children.map nativeStyle }

/-- One tap on the child at `index`. The handler's `setNativeProps` calls change
the native styles; its last `setSelectedIndex` call (also one made before an
exception) is the next `selectedIndex`. The re-render that follows passes every
polygon the same style props as before, so it changes no native style. A child
without a handler ignores the tap. -/
def tapView (parse : String → JSValue) (props : Props) (features : List Feature)
    (view : View) (index : Nat) : View :=
  match tap parse props features view.selectedIndex index with
  | none => view
  | some outcome =>
    { selectedIndex := nextSelectedIndex view.selectedIndex outcome.effects
      styles := outcome.effects.foldl applyEffect view.styles }

/-- A sequence of taps on a freshly mounted component. -/
def runTaps (parse : String → JSValue) (props : Props) (features : List Feature)
    (taps : List Nat) : View :=
  taps.foldl (tapView parse props features) (mount parse props features)

/-- The fill colour child `j` shows natively (`none` for a child that is no
polygon). -/
def shownFill (styles : List (Option Style)) (j : Nat) : Option JSValue :=
  match styles[j]? with
  | some (some style) => some style.fillColor
  | _ => none

/-- Invariant of the selection state machine over a polygon-only overlay list:
every child has a native style, the selection is an index of the list, and every
polygon that is not selected, or has no usable highlight, shows the fill colour
it was rendered with. -/
def HighlightInvariant (parse : String → JSValue) (props : Props) (overlays : List Overlay)
    (view : View) : Prop :=
  view.styles.length = overlays.length
    ∧ (∀ s, view.selectedIndex = some s → s < overlays.length)
    ∧ ∀ j o, overlays[j]? = some o →
        (view.selectedIndex ≠ some j ∨ highlightable o.feature.properties = false) →
        shownFill view.styles j = some (renderedStyle parse props o.feature.properties).fillColor

/-! ## Reference description of the builder's output

The overlays of one feature written out per geometry type, without exceptions,
and the rules of the specification on longitude/latitude pairs. -/

/-- The overlay of one ring group of feature `f`: ring 0 is the boundary and the
remaining rings, when there are any, are the holes. -/
def ringGroupOverlay (f : Feature) (rings : List (List Position)) : Overlay :=
  { feature := f
    coordinates := (rings.map makeLine).headD .undefined
    holes := if rings.length > 1 then some (.array ((rings.drop 1).map makeLine)) else none }

/-- The untagged overlays of one feature, one per geometry unit. -/
def unitOverlays (f : Feature) : List Overlay :=
  match f.geometry with
  | none => []
  | some (.Point c) => [{ feature := f, coordinates := makePoint c }]
  | some (.MultiPoint cs) => cs.map fun c => { feature := f, coordinates := makePoint c }
  | some (.LineString l) => [{ feature := f, coordinates := makeLine l }]
  | some (.MultiLineString ls) => ls.map fun l => { feature := f, coordinates := makeLine l }
  | some (.Polygon rings) => [ringGroupOverlay f rings]
  | some (.MultiPolygon ps) => ps.map (ringGroupOverlay f)
  | some (.Unsupported _ _) => []

/-- The overlays of the features of `features` that satisfy `p`, tagged `type`. -/
def groupOverlays (p : Feature → Bool) (type : String) (features : List Feature) : List Overlay :=
  ((features.filter p).flatMap unitOverlays).map (withType type)

/-- The overlay `polygonOverlay` builds for a feature that passed the `Polygon`
filter. -/
def simplePolygonOverlay (f : Feature) : Overlay :=
  match f.geometry with
  | some (.Polygon rings) => ringGroupOverlay f rings
  | _ => { feature := f }

/-- The position `[lon, lat]` of a longitude/latitude pair. -/
def position (c : JSValue × JSValue) : Position := [c.1, c.2]

/-- The record `{latitude: lat, longitude: lon}` of a longitude/latitude pair. -/
def latLngOf (c : JSValue × JSValue) : Coordinates := .latLng c.2 c.1

/-- A line or ring with every pair transformed. -/
def lineOf (l : List (JSValue × JSValue)) : Coordinates := .array (l.map latLngOf)

/-- The Polygon feature with the given rings of longitude/latitude pairs. -/
def polygonFeature (rings : List (List (JSValue × JSValue))) (p : Properties) : Feature :=
  ⟨some (.Polygon (rings.map fun r => r.map position)), p⟩

/-- The MultiPolygon feature with the given sub-polygons. -/
def multiPolygonFeature (polys : List (List (List (JSValue × JSValue)))) (p : Properties) :
    Feature :=
  ⟨some (.MultiPolygon (polys.map fun rings => rings.map fun r => r.map position)), p⟩

/-- The Polygon rule of the specification for one ring group of `feature`:
`coordinates` is ring 0 transformed and `holes` is rings 1..n transformed, the
key being present only when there is more than one ring. -/
def polygonRule (feature : Feature) (rings : List (List (JSValue × JSValue))) : Overlay :=
  { feature := feature
    type := some "polygon"
    coordinates :=
      match rings with
      | [] => .undefined
      | ring0 :: _ => lineOf ring0
    holes :=
      match rings with
      | _ :: ring1 :: rest => some (.array ((ring1 :: rest).map lineOf))
      | _ => none }

/-- The LineString feature with the given line of longitude/latitude pairs. -/
def lineStringFeature (l : List (JSValue × JSValue)) (p : Properties) : Feature :=
  ⟨some (.LineString (l.map position)), p⟩

/-- The MultiPoint feature with the given longitude/latitude pairs. -/
def multiPointFeature (cs : List (JSValue × JSValue)) (p : Properties) : Feature :=
  ⟨some (.MultiPoint (cs.map position)), p⟩

/-- The MultiLineString feature with the given sub-lines. -/
def multiLineStringFeature (ls : List (List (JSValue × JSValue))) (p : Properties) : Feature :=
  ⟨some (.MultiLineString (ls.map fun l => l.map position)), p⟩

/-- The overlay the specification gives for one coordinate `c` of `feature`. -/
def pointRule (feature : Feature) (c : JSValue × JSValue) : Overlay :=
  { feature := feature
    type := some "point"
    coordinates := .latLng c.2 c.1 }

/-- The overlay the specification gives for one line `l` of `feature`. -/
def lineRule (feature : Feature) (l : List (JSValue × JSValue)) : Overlay :=
  { feature := feature
    type := some "polyline"
    coordinates := .array (l.map fun c => .latLng c.2 c.1) }

/-- The number of point and polyline overlays of a feature list. -/
def nonPolygonCount (features : List Feature) : Nat :=
  (groupOverlays isPointFamily "point" features).length
    + (groupOverlays isLineFamily "polyline" features).length

/-- The number of polygon overlays of a feature list. -/
def polygonCount (features : List Feature) : Nat :=
  (groupOverlays isPolygon "polygon" features).length
    + (groupOverlays isMultiPolygon "polygon" features).length

/-- Position of an overlay's group in the output order: point family, line
family, overlays of Polygon features, then every other overlay. -/
def groupRank (o : Overlay) : Nat :=
  if o.type = some "point" then 0
  else if o.type = some "polyline" then 1
  else if o.type = some "polygon" ∧ isPolygon o.feature = true then 2
  else 3

/-- The overlays `makeOverlays` returns (none if it raised). -/
def overlaysOf (features : List Feature) : List Overlay :=
  match makeOverlays features with
  | .ok os => os
  | .error _ => []

/-- The overlays of group `k` (0: point family, 1: line family, 2: Polygon
features, 3: MultiPolygon features) in an output list, in output order. -/
def groupSequence (k : Nat) (os : List Overlay) : List Overlay :=
  os.filter fun o => groupRank o = k

/-- The overlays group `k` is built from, per the reference description. -/
def groupOf (k : Nat) (features : List Feature) : List Overlay :=
  match k with
  | 0 => groupOverlays isPointFamily "point" features
  | 1 => groupOverlays isLineFamily "polyline" features
  | 2 => groupOverlays isPolygon "polygon" features
  | 3 => groupOverlays isMultiPolygon "polygon" features
  | _ => []

/-- The number of geometry units of a feature: 1 for a Point, a LineString and a
Polygon, the number of coordinates, sub-lines and sub-polygons for the Multi
types, 0 without geometry or with an unsupported one. -/
def unitCount (f : Feature) : Nat :=
  match f.geometry with
  | none => 0
  | some (.Point _) => 1
  | some (.MultiPoint cs) => cs.length
  | some (.LineString _) => 1
  | some (.MultiLineString ls) => ls.length
  | some (.Polygon _) => 1
  | some (.MultiPolygon ps) => ps.length
  | some (.Unsupported _ _) => 0

/-- A feature is supported when it has a geometry whose type is one of the six
supported ones. -/
def isSupported (f : Feature) : Bool :=
  match f.geometry with
  | none => false
  | some g => decide (g.type ∈ supportedTypes)

/-! ## Example inputs -/

/-- A Point feature. -/
def examplePoint : Feature :=
  { geometry := some (.Point [.number 10, .number 20]) }

/-- A Polygon feature with a highlight colour, a stroke colour of its own and a
tap callback. -/
def examplePolygonA : Feature :=
  { geometry := some (.Polygon [[[.number 0, .number 0], [.number 0, .number 1], [.number 1, .number 1]]])
    properties :=
      { fillColor := .string "red"
        highlightedFillColor := .string "blue"
        strokeColor := .string "green"
        onPress := some 1 } }

/-- A second Polygon feature with a highlight colour and a tap callback. -/
def examplePolygonB : Feature :=
  { geometry := some (.Polygon [[[.number 5, .number 5], [.number 5, .number 6], [.number 6, .number 6]]])
    properties :=
      { fillColor := .string "yellow"
        highlightedFillColor := .string "orange"
        onPress := some 2 } }

/-- A Polygon feature that asks for a stroke width of 0. -/
def examplePolygonNoStroke : Feature :=
  { geometry := some (.Polygon [[[.number 0, .number 0], [.number 0, .number 1], [.number 1, .number 1]]])
    properties := { fillColor := .string "red", strokeWidth := .number 0 } }

/-- A LineString feature. -/
def exampleLine : Feature :=
  { geometry := some (.LineString [[.number 1, .number 2], [.number 3, .number 4]]) }

/-- A feature without geometry. -/
def exampleNoGeometry : Feature :=
  { geometry := none }

/-- A feature whose geometry has an unsupported type. -/
def exampleCollection : Feature :=
  { geometry := some (.Unsupported "GeometryCollection" (by decide)) }

/-- A Polygon feature with a fill colour and a tap callback but no highlight
colour. -/
def examplePolygonPlain : Feature :=
  { geometry := some (.Polygon [[[.number 7, .number 7], [.number 7, .number 8], [.number 8, .number 8]]])
    properties := { fillColor := .string "white", onPress := some 3 } }

/-- Component-level default styles. -/
def exampleProps : Props :=
  { color := .string "pink"
    strokeColor := .string "black"
    fillColor := .string "grey"
    strokeWidth := .number 3 }

/-- A `Number` on strings that knows no numeral: every string is `NaN`. -/
def exampleParse : String → JSValue := fun _ => .nan

/-- The ring of `examplePolygonA` and `examplePolygonNoStroke`, transformed. -/
def exampleRing : Coordinates :=
  .array [.latLng (.number 0) (.number 0), .latLng (.number 1) (.number 0),
    .latLng (.number 1) (.number 1)]

/-! ## Basic lemmas -/

theorem mapM_eq_ok_map {α β : Type} (f : α → Except JSError β) (g : α → β) (l : List α)
    (h : ∀ x ∈ l, f x = .ok (g x)) : l.mapM f = .ok (l.map g) := by
  induction l with
  | nil => rfl
  | cons x xs ih =>
    have hx : f x = .ok (g x) := h x (List.mem_cons_self x xs)
    have hxs : xs.mapM f = .ok (xs.map g) := ih fun y hy => h y (List.mem_cons_of_mem x hy)
    rw [List.mapM_cons, hx, hxs]
    rfl

theorem foldl_flatten_array {α : Type} (xs : List (List α)) (acc : List α) :
    (xs.map ConcatArg.array).foldl flatten acc = acc ++ xs.flatten := by
  induction xs generalizing acc with
  | nil => simp
  | cons x xs ih => simp [ih, flatten]

theorem foldl_flatten_item {α : Type} (xs : List α) (acc : List α) :
    (xs.map ConcatArg.item).foldl flatten acc = acc ++ xs := by
  induction xs generalizing acc with
  | nil => simp
  | cons x xs ih => simp [ih, flatten]

theorem not_supported_ne {t : String} (h : t ∉ supportedTypes) :
    t ≠ "Point" ∧ t ≠ "MultiPoint" ∧ t ≠ "LineString" ∧ t ≠ "MultiLineString" ∧
      t ≠ "Polygon" ∧ t ≠ "MultiPolygon" := by
  simpa [supportedTypes] using h

theorem featureOverlays_point (f : Feature) (h : isPointFamily f = true) :
    featureOverlays f = .ok (unitOverlays f) := by
  obtain ⟨g, p⟩ := f
  cases g with
  | none => simp [isPointFamily] at h
  | some g =>
    cases g with
    | Point c => rfl
    | MultiPoint cs =>
      simp only [featureOverlays, makeCoordinates, unitOverlays]
      rw [mapM_eq_ok_map _ (fun c => ({ feature := ⟨some (.MultiPoint cs), p⟩, coordinates := c } : Overlay))]
      · simp [List.map_map, Function.comp_def]
      · intro x _; rfl
    | Unsupported t ht =>
      have := not_supported_ne ht
      simp [isPointFamily, Geometry.type, this] at h
    | _ => simp [isPointFamily, Geometry.type] at h

theorem featureOverlays_line (f : Feature) (h : isLineFamily f = true) :
    featureOverlays f = .ok (unitOverlays f) := by
  obtain ⟨g, p⟩ := f
  cases g with
  | none => simp [isLineFamily] at h
  | some g =>
    cases g with
    | LineString l => rfl
    | MultiLineString ls =>
      simp only [featureOverlays, makeCoordinates, unitOverlays]
      rw [mapM_eq_ok_map _
        (fun c => ({ feature := ⟨some (.MultiLineString ls), p⟩, coordinates := c } : Overlay))]
      · simp [List.map_map, Function.comp_def]
      · intro x _; rfl
    | Unsupported t ht =>
      have := not_supported_ne ht
      simp [isLineFamily, Geometry.type, this] at h
    | _ => simp [isLineFamily, Geometry.type] at h

theorem makeOverlay_ringGroup (f : Feature) (rings : List (List Position))
    (h : ∃ g, f.geometry = some g ∧ (g.type = "Polygon" ∨ g.type = "MultiPolygon")) :
    makeOverlay (.array (rings.map makeLine)) f = .ok (ringGroupOverlay f rings) := by
  obtain ⟨g, hg, ht⟩ := h
  simp [makeOverlay, hg, ht, ringGroupOverlay, List.map_drop]

theorem featureOverlays_multiPolygon (f : Feature) (h : isMultiPolygon f = true) :
    featureOverlays f = .ok (unitOverlays f) := by
  obtain ⟨g, p⟩ := f
  cases g with
  | none => simp [isMultiPolygon] at h
  | some g =>
    cases g with
    | MultiPolygon ps =>
      simp only [featureOverlays, makeCoordinates, unitOverlays]
      rw [mapM_eq_ok_map _ (fun c =>
        match c with
        | .array items =>
          ({ feature := ⟨some (.MultiPolygon ps), p⟩
             coordinates := items.headD .undefined
             holes := if items.length > 1 then some (.array (items.drop 1)) else none } : Overlay)
        | _ => { feature := ⟨some (.MultiPolygon ps), p⟩ })]
      · simp [List.map_map, Function.comp_def, ringGroupOverlay, List.map_drop]
      · intro x hx
        obtain ⟨r, _, rfl⟩ := List.mem_map.1 hx
        rfl
    | Unsupported t ht =>
      have := not_supported_ne ht
      simp [isMultiPolygon, Geometry.type, this] at h
    | _ => simp [isMultiPolygon, Geometry.type] at h

theorem polygonOverlay_polygon (f : Feature) (h : isPolygon f = true) :
    polygonOverlay f = .ok (simplePolygonOverlay f) ∧ unitOverlays f = [simplePolygonOverlay f] := by
  obtain ⟨g, p⟩ := f
  cases g with
  | none => simp [isPolygon] at h
  | some g =>
    cases g with
    | Polygon rings =>
      refine ⟨?_, rfl⟩
      simp only [polygonOverlay, makeCoordinates, simplePolygonOverlay]
      exact makeOverlay_ringGroup _ rings ⟨_, rfl, Or.inl rfl⟩
    | Unsupported t ht =>
      have := not_supported_ne ht
      simp [isPolygon, Geometry.type, this] at h
    | _ => simp [isPolygon, Geometry.type] at h

theorem mapM_featureOverlays (p : Feature → Bool) (features : List Feature)
    (h : ∀ f, p f = true → featureOverlays f = .ok (unitOverlays f)) :
    (features.filter p).mapM featureOverlays = .ok ((features.filter p).map unitOverlays) :=
  mapM_eq_ok_map _ _ _ fun f hf => h f (List.mem_filter.1 hf).2

theorem mapM_polygonOverlay (features : List Feature) :
    (features.filter isPolygon).mapM polygonOverlay
      = .ok ((features.filter isPolygon).map simplePolygonOverlay) :=
  mapM_eq_ok_map _ _ _ fun f hf => (polygonOverlay_polygon f (List.mem_filter.1 hf).2).1

theorem map_simplePolygonOverlay (features : List Feature) :
    (features.filter isPolygon).map simplePolygonOverlay
      = (features.filter isPolygon).flatMap unitOverlays := by
  induction features with
  | nil => rfl
  | cons f fs ih =>
    by_cases hf : isPolygon f = true
    · simp only [List.filter_cons_of_pos hf, List.map_cons, List.flatMap_cons, ih,
        (polygonOverlay_polygon f hf).2, List.singleton_append]
    · simp only [List.filter_cons_of_neg hf, ih]

/-- The builder never raises, and its output is the four groups in the order
point family, line family, `Polygon` features, `MultiPolygon` features. -/
theorem makeOverlays_eq (features : List Feature) :
    makeOverlays features = .ok
      (groupOverlays isPointFamily "point" features
        ++ groupOverlays isLineFamily "polyline" features
        ++ (groupOverlays isPolygon "polygon" features
          ++ groupOverlays isMultiPolygon "polygon" features)) := by
  simp only [makeOverlays, mapM_featureOverlays _ _ featureOverlays_point,
    mapM_featureOverlays _ _ featureOverlays_line,
    mapM_featureOverlays _ _ featureOverlays_multiPolygon, mapM_polygonOverlay,
    foldl_flatten_array, foldl_flatten_item, map_simplePolygonOverlay, groupOverlays,
    List.flatMap_def, List.nil_append, List.map_append]
  rfl

/-! ## Overlay builder: claims -/

theorem makePoint_position (c : JSValue × JSValue) : makePoint (position c) = latLngOf c := rfl

theorem makeLine_position (l : List (JSValue × JSValue)) :
    makeLine (l.map position) = lineOf l := by
  simp [makeLine, lineOf, List.map_map, Function.comp_def, makePoint_position]

theorem isPointFamily_iff (f : Feature) :
    isPointFamily f = true ↔ ∃ g, f.geometry = some g ∧ (g.type = "Point" ∨ g.type = "MultiPoint") := by
  obtain ⟨g, p⟩ := f
  cases g <;> simp [isPointFamily]

theorem makeOverlays_polygon (rings : List (List Position)) (p : Properties) :
    makeOverlays [⟨some (.Polygon rings), p⟩]
      = .ok [withType "polygon" (ringGroupOverlay ⟨some (.Polygon rings), p⟩ rings)] := by
  rw [makeOverlays_eq]
  rfl

/-- C1: a Polygon feature whose coordinates hold the rings `ring0 :: rest` gives
exactly one overlay, of type 'polygon', whose coordinates is ring 0 with every
`[lon, lat]` pair mapped to `{latitude: lat, longitude: lon}` and whose holes is
the remaining rings transformed the same way, in order; with no remaining ring
the overlay has no holes field. -/
theorem polygon_overlay (ring0 : List (JSValue × JSValue))
    (rest : List (List (JSValue × JSValue))) (p : Properties) :
    makeOverlays [⟨some (.Polygon ((ring0 :: rest).map fun r => r.map position)), p⟩]
      = .ok [{ feature := ⟨some (.Polygon ((ring0 :: rest).map fun r => r.map position)), p⟩
               type := some "polygon"
               coordinates := .array (ring0.map latLngOf)
               holes := if rest = [] then none
                        else some (.array (rest.map fun r => .array (r.map latLngOf))) }]
      ∧ (rest.map fun r => Coordinates.array (r.map latLngOf)).length = rest.length := by
  refine ⟨?_, by simp⟩
  rw [makeOverlays_polygon]
  cases rest with
  | nil => simp [withType, ringGroupOverlay, makeLine_position, lineOf]
  | cons r rs =>
    simp [withType, ringGroupOverlay, makeLine_position, lineOf, List.map_map, Function.comp_def]

theorem ringGroupOverlay_position (f : Feature) (rings : List (List (JSValue × JSValue))) :
    withType "polygon" (ringGroupOverlay f (rings.map fun r => r.map position))
      = polygonRule f rings := by
  match rings with
  | [] => rfl
  | [r] => simp [withType, ringGroupOverlay, polygonRule, makeLine_position]
  | r :: r1 :: rest =>
    simp [withType, ringGroupOverlay, polygonRule, makeLine_position, List.map_map,
      Function.comp_def]

theorem makeOverlays_multiPolygon (polys : List (List (List Position))) (p : Properties) :
    makeOverlays [⟨some (.MultiPolygon polys), p⟩]
      = .ok (polys.map fun rings =>
          withType "polygon" (ringGroupOverlay ⟨some (.MultiPolygon polys), p⟩ rings)) := by
  rw [makeOverlays_eq]
  simp [groupOverlays, isPointFamily, isLineFamily, isPolygon, isMultiPolygon, Geometry.type,
    unitOverlays, List.map_map, Function.comp_def]

/-- C2: a MultiPolygon feature with `k` sub-polygons gives exactly `k` overlays,
all of type 'polygon' and all referencing the feature, the `j`-th being what the
Polygon rule gives for the `j`-th sub-polygon (ring 0 transformed as coordinates,
rings 1..n transformed as holes, no holes field for a single ring); and a Polygon
feature with the same rings gives that same overlay. -/
theorem multiPolygon_overlays (polys : List (List (List (JSValue × JSValue))))
    (p : Properties) :
    makeOverlays [multiPolygonFeature polys p]
        = .ok (polys.map (polygonRule (multiPolygonFeature polys p)))
      ∧ (polys.map (polygonRule (multiPolygonFeature polys p))).length = polys.length
      ∧ (∀ o ∈ polys.map (polygonRule (multiPolygonFeature polys p)),
          o.type = some "polygon" ∧ o.feature = multiPolygonFeature polys p)
      ∧ ∀ rings, makeOverlays [polygonFeature rings p]
          = .ok [polygonRule (polygonFeature rings p) rings] := by
  refine ⟨?_, by simp, ?_, ?_⟩
  · rw [multiPolygonFeature, makeOverlays_multiPolygon]
    simp [List.map_map, Function.comp_def, ringGroupOverlay_position]
  · intro o ho
    obtain ⟨rings, _, rfl⟩ := List.mem_map.1 ho
    exact ⟨rfl, rfl⟩
  · intro rings
    rw [polygonFeature, makeOverlays_polygon, ringGroupOverlay_position]

/-- C3: a Point feature with coordinate `[lon, lat]` gives exactly one overlay,
of type 'point', referencing the feature, whose coordinates is the record
`{latitude: lat, longitude: lon}`, whatever the two values are. -/
theorem point_overlay (lon lat : JSValue) (p : Properties) :
    makeOverlays [⟨some (.Point [lon, lat]), p⟩]
      = .ok [{ feature := ⟨some (.Point [lon, lat]), p⟩
               type := some "point"
               coordinates := .latLng lat lon
               holes := none }] := by
  rfl

/-- C6: a MultiPoint feature with `m` coordinates gives `m` 'point' overlays,
the `j`-th holding the `j`-th coordinate transformed; a LineString feature gives
one 'polyline' overlay whose coordinates has the length of the input line and
holds the input pairs transformed, in order; a MultiLineString feature with `m`
sub-lines gives `m` 'polyline' overlays, the `j`-th being the LineString result
for the `j`-th sub-line. -/
theorem point_line_family_overlays (cs l : List (JSValue × JSValue))
    (ls : List (List (JSValue × JSValue))) (p : Properties) :
    (makeOverlays [multiPointFeature cs p]
        = .ok (cs.map (pointRule (multiPointFeature cs p)))
      ∧ (cs.map (pointRule (multiPointFeature cs p))).length = cs.length)
    ∧ (makeOverlays [lineStringFeature l p] = .ok [lineRule (lineStringFeature l p) l]
      ∧ (l.map latLngOf).length = l.length
      ∧ ∀ (j : Nat) (h : j < l.length),
          (l.map latLngOf)[j]? = some (.latLng (l.get ⟨j, h⟩).2 (l.get ⟨j, h⟩).1))
    ∧ (makeOverlays [multiLineStringFeature ls p]
        = .ok (ls.map (lineRule (multiLineStringFeature ls p)))
      ∧ (ls.map (lineRule (multiLineStringFeature ls p))).length = ls.length
      ∧ ∀ sub, makeOverlays [lineStringFeature sub p]
          = .ok [lineRule (lineStringFeature sub p) sub]) := by
  have hline : ∀ sub, makeOverlays [lineStringFeature sub p]
      = .ok [lineRule (lineStringFeature sub p) sub] := by
    intro sub
    rw [makeOverlays_eq]
    simp [groupOverlays, isPointFamily, isLineFamily, isPolygon, isMultiPolygon, Geometry.type,
      unitOverlays, lineStringFeature, lineRule, withType, makeLine_position, lineOf, latLngOf]
  refine ⟨⟨?_, by simp⟩, ⟨hline l, by simp, ?_⟩, ?_, by simp, hline⟩
  · rw [makeOverlays_eq]
    simp [groupOverlays, isPointFamily, isLineFamily, isPolygon, isMultiPolygon, Geometry.type,
      unitOverlays, multiPointFeature, withType, List.map_map, Function.comp_def,
      makePoint_position, pointRule, latLngOf]
  · intro j h
    simp [h, latLngOf]
  · rw [makeOverlays_eq]
    simp [groupOverlays, isPointFamily, isLineFamily, isPolygon, isMultiPolygon, Geometry.type,
      unitOverlays, multiLineStringFeature, lineRule, withType, List.map_map, Function.comp_def,
      makeLine_position, lineOf, latLngOf]

theorem feature_of_mem_unitOverlays {f : Feature} {o : Overlay} (h : o ∈ unitOverlays f) :
    o.feature = f := by
  obtain ⟨g, p⟩ := f
  cases g with
  | none => simp [unitOverlays] at h
  | some g =>
    cases g <;> simp [unitOverlays] at h
    case Point => rw [h]
    case LineString => rw [h]
    case Polygon => rw [h]; rfl
    case MultiPoint => obtain ⟨_, _, rfl⟩ := h; rfl
    case MultiLineString => obtain ⟨_, _, rfl⟩ := h; rfl
    case MultiPolygon => obtain ⟨_, _, rfl⟩ := h; rfl

theorem mem_groupOverlays {p : Feature → Bool} {type : String} {features : List Feature}
    {o : Overlay} (h : o ∈ groupOverlays p type features) :
    o.type = some type ∧ o.feature ∈ features ∧ p o.feature = true := by
  simp only [groupOverlays, List.mem_map, List.mem_flatMap, List.mem_filter] at h
  obtain ⟨u, ⟨f, ⟨hf, hp⟩, hu⟩, rfl⟩ := h
  have := feature_of_mem_unitOverlays hu
  subst this
  exact ⟨rfl, hf, hp⟩

theorem isMultiPolygon_not_isPolygon {f : Feature} (h : isMultiPolygon f = true) :
    isPolygon f = false := by
  obtain ⟨g, p⟩ := f
  cases g with
  | none => rfl
  | some g =>
    simp only [isMultiPolygon, beq_iff_eq] at h
    simp [isPolygon, h]

theorem groupRank_sorted (features : List Feature) :
    (groupOverlays isPointFamily "point" features
        ++ groupOverlays isLineFamily "polyline" features
        ++ (groupOverlays isPolygon "polygon" features
          ++ groupOverlays isMultiPolygon "polygon" features)).Pairwise
      fun a b => groupRank a ≤ groupRank b := by
  have h0 : ∀ o ∈ groupOverlays isPointFamily "point" features, groupRank o = 0 := by
    intro o ho
    simp [groupRank, (mem_groupOverlays ho).1]
  have h1 : ∀ o ∈ groupOverlays isLineFamily "polyline" features, groupRank o = 1 := by
    intro o ho
    simp [groupRank, (mem_groupOverlays ho).1]
  have h2 : ∀ o ∈ groupOverlays isPolygon "polygon" features, groupRank o = 2 := by
    intro o ho
    simp [groupRank, (mem_groupOverlays ho).1, (mem_groupOverlays ho).2.2]
  have h3 : ∀ o ∈ groupOverlays isMultiPolygon "polygon" features, groupRank o = 3 := by
    intro o ho
    simp [groupRank, (mem_groupOverlays ho).1,
      isMultiPolygon_not_isPolygon (mem_groupOverlays ho).2.2]
  have hconst : ∀ (l : List Overlay) (n : Nat), (∀ o ∈ l, groupRank o = n) →
      l.Pairwise fun a b => groupRank a ≤ groupRank b := by
    intro l n hl
    exact List.pairwise_of_forall_mem_list fun a ha b hb => by rw [hl a ha, hl b hb]
  refine List.pairwise_append.2 ⟨List.pairwise_append.2 ⟨hconst _ 0 h0, hconst _ 1 h1, ?_⟩,
    List.pairwise_append.2 ⟨hconst _ 2 h2, hconst _ 3 h3, ?_⟩, ?_⟩
  · intro a ha b hb
    rw [h0 a ha, h1 b hb]; decide
  · intro a ha b hb
    rw [h2 a ha, h3 b hb]; decide
  · intro a ha b hb
    have ha' : groupRank a ≤ 1 := by
      rcases List.mem_append.1 ha with h | h
      · rw [h0 a h]; decide
      · rw [h1 a h]
    have hb' : 2 ≤ groupRank b := by
      rcases List.mem_append.1 hb with h | h
      · rw [h2 b h]
      · rw [h3 b h]; decide
    omega

theorem groupRank_lt {a b : Overlay}
    (h : (a.type = some "point" ∧ b.type = some "polyline")
      ∨ (a.type = some "polyline" ∧ b.type = some "polygon")
      ∨ (a.type = some "point" ∧ b.type = some "polygon")
      ∨ (a.type = some "polygon" ∧ isPolygon a.feature = true
          ∧ b.type = some "polygon" ∧ isMultiPolygon b.feature = true)) :
    groupRank a < groupRank b := by
  rcases h with ⟨ha, hb⟩ | ⟨ha, hb⟩ | ⟨ha, hb⟩ | ⟨ha, hpa, hb, hpb⟩
  · simp [groupRank, ha, hb]
  · simp only [groupRank, ha, hb]
    split_ifs <;> simp_all
  · simp only [groupRank, ha, hb]
    split_ifs <;> simp_all
  · simp [groupRank, ha, hb, hpa, isMultiPolygon_not_isPolygon hpb]

/-- C4: the output of `makeOverlays` is grouped by family: an overlay of type
'point' stands before every overlay of type 'polyline' or 'polygon', an overlay
of type 'polyline' before every overlay of type 'polygon', and a polygon overlay
of a Polygon feature before every polygon overlay of a MultiPolygon feature. In
particular one Point, one LineString and one Polygon feature give
[point overlay, polyline overlay, polygon overlay] in each of the six input
orders. -/
theorem overlays_grouped_by_family (features : List Feature) (c : Position)
    (l : List Position) (rings : List (List Position)) (pc pl pr : Properties) :
    (∃ os, makeOverlays features = .ok os ∧
      ∀ (i j : Nat) (a b : Overlay), os[i]? = some a → os[j]? = some b →
        ((a.type = some "point" ∧ b.type = some "polyline")
          ∨ (a.type = some "polyline" ∧ b.type = some "polygon")
          ∨ (a.type = some "point" ∧ b.type = some "polygon")
          ∨ (a.type = some "polygon" ∧ isPolygon a.feature = true
              ∧ b.type = some "polygon" ∧ isMultiPolygon b.feature = true)) →
        i < j)
    ∧ (∀ input ∈
          [[(⟨some (.Point c), pc⟩ : Feature), ⟨some (.LineString l), pl⟩, ⟨some (.Polygon rings), pr⟩],
           [⟨some (.Point c), pc⟩, ⟨some (.Polygon rings), pr⟩, ⟨some (.LineString l), pl⟩],
           [⟨some (.LineString l), pl⟩, ⟨some (.Point c), pc⟩, ⟨some (.Polygon rings), pr⟩],
           [⟨some (.LineString l), pl⟩, ⟨some (.Polygon rings), pr⟩, ⟨some (.Point c), pc⟩],
           [⟨some (.Polygon rings), pr⟩, ⟨some (.Point c), pc⟩, ⟨some (.LineString l), pl⟩],
           [⟨some (.Polygon rings), pr⟩, ⟨some (.LineString l), pl⟩, ⟨some (.Point c), pc⟩]],
        makeOverlays input = .ok
          [{ feature := ⟨some (.Point c), pc⟩
             type := some "point"
             coordinates := makePoint c },
           { feature := ⟨some (.LineString l), pl⟩
             type := some "polyline"
             coordinates := makeLine l },
           { feature := ⟨some (.Polygon rings), pr⟩
             type := some "polygon"
             coordinates := (rings.map makeLine).headD .undefined
             holes := if rings.length > 1 then some (.array ((rings.drop 1).map makeLine))
                      else none }]) := by
  constructor
  · refine ⟨_, makeOverlays_eq features, ?_⟩
    intro i j a b hi hj hab
    have hlt := groupRank_lt hab
    obtain ⟨hi', rfl⟩ := List.getElem?_eq_some.1 hi
    obtain ⟨hj', rfl⟩ := List.getElem?_eq_some.1 hj
    by_contra hij
    rcases Nat.lt_or_eq_of_le (Nat.le_of_not_lt hij) with h | h
    · have := List.pairwise_iff_getElem.1 (groupRank_sorted features) j i hj' hi' h
      omega
    · subst h
      omega
  · intro input hinput
    simp only [List.mem_cons, List.mem_singleton, List.not_mem_nil, or_false] at hinput
    rcases hinput with rfl | rfl | rfl | rfl | rfl | rfl <;> rw [makeOverlays_eq] <;> rfl

/-- C4 at a concrete collection: a Polygon, a LineString and a Point feature,
in that input order, give the point overlay, then the polyline overlay, then the
polygon overlay. -/
theorem overlays_grouped_by_family_witness :
    makeOverlays [examplePolygonA, exampleLine, examplePoint] = .ok
      [{ feature := examplePoint
         type := some "point"
         coordinates := .latLng (.number 20) (.number 10) },
       { feature := exampleLine
         type := some "polyline"
         coordinates := .array [.latLng (.number 2) (.number 1), .latLng (.number 4) (.number 3)] },
       { feature := examplePolygonA
         type := some "polygon"
         coordinates := exampleRing }] :=
  (overlays_grouped_by_family [] [.number 10, .number 20]
    [[.number 1, .number 2], [.number 3, .number 4]]
    [[[.number 0, .number 0], [.number 0, .number 1], [.number 1, .number 1]]]
    {} {} examplePolygonA.properties).2 _ (by simp [examplePolygonA, exampleLine, examplePoint])

theorem groupOverlays_filter_isSupported (p : Feature → Bool) (type : String)
    (features : List Feature) (h : ∀ f, p f = true → isSupported f = true) :
    groupOverlays p type (features.filter isSupported) = groupOverlays p type features := by
  have : (features.filter isSupported).filter p = features.filter p := by
    rw [List.filter_filter]
    apply List.filter_congr
    intro f _
    cases hp : p f
    · rfl
    · simp [h f hp]
  simp only [groupOverlays, this]

theorem isSupported_of_family (f : Feature) :
    (isPointFamily f = true → isSupported f = true)
      ∧ (isLineFamily f = true → isSupported f = true)
      ∧ (isPolygon f = true → isSupported f = true)
      ∧ (isMultiPolygon f = true → isSupported f = true) := by
  obtain ⟨g, p⟩ := f
  cases g with
  | none => simp [isPointFamily, isLineFamily, isPolygon, isMultiPolygon]
  | some g =>
    simp only [isPointFamily, isLineFamily, isPolygon, isMultiPolygon, isSupported,
      supportedTypes, Bool.or_eq_true, beq_iff_eq, decide_eq_true_eq, List.mem_cons,
      List.mem_singleton, List.not_mem_nil, or_false]
    refine ⟨?_, ?_, ?_, ?_⟩ <;> intro h <;> tauto

theorem groupOverlays_eq_nil (p : Feature → Bool) (type : String) (features : List Feature)
    (hp : ∀ f, p f = true → isSupported f = true)
    (h : ∀ f ∈ features, isSupported f = false) :
    groupOverlays p type features = [] := by
  have : features.filter p = [] := by
    apply List.filter_eq_nil_iff.2
    intro f hf hpf
    have := hp f hpf
    rw [h f hf] at this
    cases this
  simp [groupOverlays, this]

/-- C5: features with no geometry or with a geometry type other than the six
supported ones are silently skipped: for every feature list `makeOverlays`
returns a result, that result is the result for the list with those features
removed, and a list made only of such features gives the empty overlay list. -/
theorem unsupported_features_skipped (features : List Feature) :
    (∃ os, makeOverlays features = .ok os)
      ∧ makeOverlays features = makeOverlays (features.filter isSupported)
      ∧ ((∀ f ∈ features, isSupported f = false) → makeOverlays features = .ok []) := by
  refine ⟨⟨_, makeOverlays_eq features⟩, ?_, ?_⟩
  · rw [makeOverlays_eq, makeOverlays_eq,
      groupOverlays_filter_isSupported _ _ _ fun f => (isSupported_of_family f).1,
      groupOverlays_filter_isSupported _ _ _ fun f => (isSupported_of_family f).2.1,
      groupOverlays_filter_isSupported _ _ _ fun f => (isSupported_of_family f).2.2.1,
      groupOverlays_filter_isSupported _ _ _ fun f => (isSupported_of_family f).2.2.2]
  · intro h
    rw [makeOverlays_eq,
      groupOverlays_eq_nil _ _ _ (fun f => (isSupported_of_family f).1) h,
      groupOverlays_eq_nil _ _ _ (fun f => (isSupported_of_family f).2.1) h,
      groupOverlays_eq_nil _ _ _ (fun f => (isSupported_of_family f).2.2.1) h,
      groupOverlays_eq_nil _ _ _ (fun f => (isSupported_of_family f).2.2.2) h]
    rfl

/-- C5 at a concrete list: a feature without geometry and a `GeometryCollection`
feature give the empty overlay list. -/
theorem unsupported_features_skipped_witness :
    makeOverlays [exampleNoGeometry, exampleCollection] = .ok [] :=
  (unsupported_features_skipped [exampleNoGeometry, exampleCollection]).2.2 (by decide)

/-! ## Renderer: handle table, base style, tap handler -/

/-- C7: with a Point feature before two Polygon features the overlay list holds
polygons at indices 1 and 2, but the handle table the render pass leaves is
`[handle 1, handle 2]`: entry 1 is the handle of overlay 2's primitive and entry
2 does not exist, so the table is not indexed like the overlay list. -/
theorem handle_table_shifted_by_points :
    ∃ r, Geojson exampleParse exampleProps [examplePoint, examplePolygonA, examplePolygonB] = .ok r
      ∧ r.overlays.map (fun o => o.type) = [some "point", some "polygon", some "polygon"]
      ∧ r.overlayRefs = [1, 2]
      ∧ r.overlayRefs[1]? = some 2
      ∧ r.overlayRefs[2]? = none := by
  refine ⟨_, rfl, ?_, ?_, ?_, ?_⟩ <;> decide

/-- C8: a polygon with a stroke colour of its own is rendered with that colour,
is highlighted by a first tap, and the next tap (on itself or on another polygon)
applies to it the component's default stroke colour, not the one it was rendered
with. -/
theorem restore_uses_default_stroke :
    (∃ r, Geojson exampleParse exampleProps [examplePolygonA, examplePolygonB] = .ok r
        ∧ r.children[0]? = some (some (.polygon 0 exampleRing none
            ⟨.string "red", .string "green", .number 3⟩ (.bool false))))
      ∧ tap exampleParse exampleProps [examplePolygonA, examplePolygonB] none 0
        = some { effects := [.setSelectedIndex (some 0),
                   .setNativeProps 0 ⟨.string "blue", .string "red", .undefined⟩,
                   .onPress (some 1) (some examplePolygonA.properties)] }
      ∧ tap exampleParse exampleProps [examplePolygonA, examplePolygonB] (some 0) 1
        = some { effects := [.setNativeProps 0 ⟨.string "red", .string "black", .number 3⟩,
                   .setSelectedIndex (some 1),
                   .setNativeProps 1 ⟨.string "orange", .string "yellow", .undefined⟩,
                   .onPress (some 2) (some examplePolygonB.properties)] }
      ∧ tap exampleParse exampleProps [examplePolygonA, examplePolygonB] (some 0) 0
        = some { effects := [.setNativeProps 0 ⟨.string "red", .string "black", .number 3⟩,
                   .setSelectedIndex none,
                   .onPress (some 1) none] }
      ∧ (⟨.string "red", .string "black", .number 3⟩ : Style)
        ≠ ⟨.string "red", .string "green", .number 3⟩ := by
  refine ⟨⟨_, rfl, by decide⟩, ?_, ?_, ?_, ?_⟩ <;> decide

/-- C9: a polygon feature that defines `strokeWidth: 0` is rendered with the
component's default stroke width (3 here), not with `Number(0) = 0`, whatever
`Number` does on strings. -/
theorem zero_strokeWidth_ignored (parse : String → JSValue) :
    renderedStyle parse exampleProps examplePolygonNoStroke.properties
        = ⟨.string "red", .string "black", .number 3⟩
      ∧ examplePolygonNoStroke.properties.strokeWidth ≠ .undefined
      ∧ examplePolygonNoStroke.properties.strokeWidth.toNumber parse = .number 0
      ∧ (Geojson parse exampleProps [examplePolygonNoStroke]).map (fun r => r.children)
        = .ok [some (.polygon 0 exampleRing none
            ⟨.string "red", .string "black", .number 3⟩ (.bool false))] := by
  refine ⟨rfl, by decide, rfl, rfl⟩

/-- C10: with a Point feature before two Polygon features and nothing selected,
tapping the polygon at index 1 applies its highlighted style to the primitive of
overlay 2, and tapping the polygon at index 2 raises a `TypeError` after
`setSelectedIndex(2)`: no style is applied and `onPress` is not invoked. -/
theorem select_misses_primitive_after_points :
    tap exampleParse exampleProps [examplePoint, examplePolygonA, examplePolygonB] none 1
        = some { effects := [.setSelectedIndex (some 1),
                   .setNativeProps 2 ⟨.string "blue", .string "red", .undefined⟩,
                   .onPress (some 1) (some examplePolygonA.properties)] }
      ∧ tap exampleParse exampleProps [examplePoint, examplePolygonA, examplePolygonB] none 2
        = some { effects := [.setSelectedIndex (some 2)], error := some .typeError } := by
  refine ⟨?_, ?_⟩ <;> decide

/-! ## Renderer: what holds on every input -/

theorem renderFrom_append (parse : String → JSValue) (props : Props) (k : Nat)
    (xs ys : List Overlay) :
    renderFrom parse props k (xs ++ ys)
      = renderFrom parse props k xs ++ renderFrom parse props (k + xs.length) ys := by
  induction xs generalizing k with
  | nil => rfl
  | cons x xs ih =>
    show renderOverlay parse props x k :: renderFrom parse props (k + 1) (xs ++ ys)
      = renderOverlay parse props x k
        :: (renderFrom parse props (k + 1) xs ++ renderFrom parse props (k + (xs.length + 1)) ys)
    rw [ih, Nat.add_assoc k 1, Nat.add_comm 1]

theorem attachRefs_append (xs ys : List (Option Primitive)) :
    attachRefs (xs ++ ys) = attachRefs xs ++ attachRefs ys := by
  induction xs with
  | nil => rfl
  | cons x xs ih =>
    cases x with
    | none => simpa [attachRefs] using ih
    | some p => cases p <;> simpa [attachRefs] using ih

theorem attachRefs_renderFrom_polygons (parse : String → JSValue) (props : Props) (k : Nat)
    (os : List Overlay) (h : ∀ o ∈ os, o.type = some "polygon") :
    attachRefs (renderFrom parse props k os) = List.range' k os.length := by
  induction os generalizing k with
  | nil => rfl
  | cons o os ih =>
    have ho : o.type = some "polygon" := h o (List.mem_cons_self o os)
    simp [renderFrom, renderOverlay, ho, attachRefs, List.range'_succ,
      ih (k + 1) fun o' ho' => h o' (List.mem_cons_of_mem o ho')]

theorem attachRefs_renderFrom_others (parse : String → JSValue) (props : Props) (k : Nat)
    (os : List Overlay) (h : ∀ o ∈ os, o.type ≠ some "polygon") :
    attachRefs (renderFrom parse props k os) = [] := by
  induction os generalizing k with
  | nil => rfl
  | cons o os ih =>
    have ho : o.type ≠ some "polygon" := h o (List.mem_cons_self o os)
    have ih' := ih (k + 1) fun o' ho' => h o' (List.mem_cons_of_mem o ho')
    simp only [renderFrom, renderOverlay]
    split_ifs <;> simp_all [attachRefs]

/-- The handle table of every render pass: the handles of the polygon
primitives in order. With `m` point and polyline overlays before the polygon
overlays, entry `i` is the handle of the primitive of overlay `m + i`. -/
theorem overlayRefs_eq (parse : String → JSValue) (props : Props) (features : List Feature) :
    ∃ r, Geojson parse props features = .ok r
      ∧ r.overlays.length = nonPolygonCount features + polygonCount features
      ∧ r.overlayRefs = List.range' (nonPolygonCount features) (polygonCount features) := by
  have hpoly : ∀ (p : Feature → Bool), ∀ o ∈ groupOverlays p "polygon" features,
      o.type = some "polygon" := fun p o ho => (mem_groupOverlays ho).1
  refine ⟨_, by rw [Geojson, makeOverlays_eq], ?_, ?_⟩
  · simp only [nonPolygonCount, polygonCount, List.length_append]
  · simp only [renderFrom_append, attachRefs_append]
    rw [attachRefs_renderFrom_others, attachRefs_renderFrom_others,
      attachRefs_renderFrom_polygons _ _ _ _ (hpoly _),
      attachRefs_renderFrom_polygons _ _ _ _ (hpoly _)]
    · simp only [nonPolygonCount, polygonCount, List.length_append, List.nil_append,
        Nat.zero_add, List.range'_append_1]
      rw [Nat.add_comm (groupOverlays isMultiPolygon "polygon" features).length]
    · intro o ho
      rw [(mem_groupOverlays ho).1]
      decide
    · intro o ho
      rw [(mem_groupOverlays ho).1]
      decide

theorem restoreStep_effects (props : Props) (overlays : List Overlay) (overlayRefs : List Nat)
    (s : Option Nat) :
    ∀ e ∈ (restoreStep props overlays overlayRefs s).effects,
      ∃ s' handle style, s = some s' ∧ overlayRefs[s']? = some handle
        ∧ e = .setNativeProps handle style := by
  intro e he
  cases s with
  | none => simp [restoreStep] at he
  | some s' =>
    simp only [restoreStep] at he
    cases hov : overlays[s']? with
    | none => simp [hov] at he
    | some selected =>
      simp only [hov] at he
      split_ifs at he
      · simp only [setNativeProps] at he
        cases href : overlayRefs[s']? with
        | none => simp [href] at he
        | some handle =>
          simp only [href, List.mem_singleton] at he
          exact ⟨s', handle, _, rfl, href, he⟩
      · simp at he

theorem nextSelectedIndex_append (s : Option Nat) (es rest : List Effect)
    (h : ∀ e ∈ es, ∃ handle style, e = .setNativeProps handle style) :
    nextSelectedIndex s (es ++ rest) = nextSelectedIndex s rest := by
  induction es with
  | nil => rfl
  | cons e es ih =>
    obtain ⟨handle, style, rfl⟩ := h _ (List.mem_cons_self _ _)
    simpa [nextSelectedIndex] using ih fun e' he' => h e' (List.mem_cons_of_mem _ he')

/-- The select transition where the handle table is aligned at the tapped index:
when entry `i` of the table is the handle of primitive `i`, the overlay at `i` is
not the selected one and un-highlighting the selected one raised nothing, the
handler calls `setSelectedIndex(i)` and, when the overlay has a fill colour and a
different highlight colour, applies the highlighted style to primitive `i` and
invokes its `onPress` once with the feature's properties. -/
theorem onPress_select_aligned (props : Props) (overlays : List Overlay)
    (overlayRefs : List Nat) (s : Option Nat) (overlay : Overlay) (i : Nat)
    (hi : overlays[i]? = some overlay) (href : overlayRefs[i]? = some i) (hs : s ≠ some i)
    (hrestore : (restoreStep props overlays overlayRefs s).error = none) :
    onPress props overlays overlayRefs s overlay i
        = { effects := (restoreStep props overlays overlayRefs s).effects
              ++ .setSelectedIndex (some i)
                :: (if (destructure overlay.feature.properties).fillColor.truthy
                      && (destructure overlay.feature.properties).highlightedFillColor.strictNe
                          (destructure overlay.feature.properties).fillColor
                    then [.setNativeProps i
                            { fillColor := (destructure overlay.feature.properties).highlightedFillColor
                              strokeColor :=
                                (destructure overlay.feature.properties).highlightedStrokeColor
                              strokeWidth :=
                                (destructure overlay.feature.properties).highlightedStrokeWidth },
                          .onPress (destructure overlay.feature.properties).onPress
                            (some overlay.feature.properties)]
                    else [])
            error := none }
      ∧ nextSelectedIndex s (onPress props overlays overlayRefs s overlay i).effects = some i := by
  have key : onPress props overlays overlayRefs s overlay i
        = { effects := (restoreStep props overlays overlayRefs s).effects
              ++ .setSelectedIndex (some i)
                :: (if (destructure overlay.feature.properties).fillColor.truthy
                      && (destructure overlay.feature.properties).highlightedFillColor.strictNe
                          (destructure overlay.feature.properties).fillColor
                    then [.setNativeProps i
                            { fillColor := (destructure overlay.feature.properties).highlightedFillColor
                              strokeColor :=
                                (destructure overlay.feature.properties).highlightedStrokeColor
                              strokeWidth :=
                                (destructure overlay.feature.properties).highlightedStrokeWidth },
                          .onPress (destructure overlay.feature.properties).onPress
                            (some overlay.feature.properties)]
                    else [])
            error := none } := by
    have hd : deselectStep s overlay i = {} := by
      simp [deselectStep, hs]
    simp only [onPress, hd, selectStep, setNativeProps, href, hi, hs, ne_eq, not_false_eq_true,
      or_true, if_true]
    split_ifs <;> simp [Outcome.andThen, hrestore]
  refine ⟨key, ?_⟩
  rw [key]
  simp only
  rw [nextSelectedIndex_append]
  · split_ifs <;> rfl
  · intro e he
    obtain ⟨_, handle, style, _, _, rfl⟩ := restoreStep_effects _ _ _ _ e he
    exact ⟨handle, style, rfl⟩

/-! ## Overlay builder: types, order, counts and holes -/

theorem geometry_of_family (f : Feature) :
    (isPointFamily f = true ↔
        ∃ g, f.geometry = some g ∧ (g.type = "Point" ∨ g.type = "MultiPoint"))
      ∧ (isLineFamily f = true ↔
        ∃ g, f.geometry = some g ∧ (g.type = "LineString" ∨ g.type = "MultiLineString"))
      ∧ (isPolygon f = true ↔ ∃ g, f.geometry = some g ∧ g.type = "Polygon")
      ∧ (isMultiPolygon f = true ↔ ∃ g, f.geometry = some g ∧ g.type = "MultiPolygon") := by
  obtain ⟨g, p⟩ := f
  cases g <;> simp [isPointFamily, isLineFamily, isPolygon, isMultiPolygon]

theorem mem_makeOverlays {features : List Feature} {os : List Overlay} {o : Overlay}
    (h : makeOverlays features = .ok os) (ho : o ∈ os) :
    o ∈ groupOverlays isPointFamily "point" features
      ∨ o ∈ groupOverlays isLineFamily "polyline" features
      ∨ o ∈ groupOverlays isPolygon "polygon" features
      ∨ o ∈ groupOverlays isMultiPolygon "polygon" features := by
  rw [makeOverlays_eq] at h
  cases h
  simp only [List.mem_append] at ho
  tauto

/-- C14: every overlay of `makeOverlays(features)` references a feature of the
input list that has a geometry of a supported type, and its `type` agrees with
that geometry's family: 'point' exactly for Point and MultiPoint, 'polyline'
exactly for LineString and MultiLineString, 'polygon' exactly for Polygon and
MultiPolygon. -/
theorem overlay_type_matches_family (features : List Feature) :
    ∃ os, makeOverlays features = .ok os ∧ ∀ o ∈ os,
      o.feature ∈ features
        ∧ ∃ g, o.feature.geometry = some g ∧ g.type ∈ supportedTypes
          ∧ (o.type = some "point" ↔ (g.type = "Point" ∨ g.type = "MultiPoint"))
          ∧ (o.type = some "polyline" ↔ (g.type = "LineString" ∨ g.type = "MultiLineString"))
          ∧ (o.type = some "polygon" ↔ (g.type = "Polygon" ∨ g.type = "MultiPolygon")) := by
  refine ⟨_, makeOverlays_eq features, ?_⟩
  intro o ho
  rcases mem_makeOverlays (makeOverlays_eq features) ho with h | h | h | h
  · obtain ⟨ht, hf, hp⟩ := mem_groupOverlays h
    obtain ⟨g, hg, hty⟩ := (geometry_of_family o.feature).1.1 hp
    refine ⟨hf, g, hg, ?_⟩
    rcases hty with hty | hty <;> simp [ht, hty, supportedTypes]
  · obtain ⟨ht, hf, hp⟩ := mem_groupOverlays h
    obtain ⟨g, hg, hty⟩ := (geometry_of_family o.feature).2.1.1 hp
    refine ⟨hf, g, hg, ?_⟩
    rcases hty with hty | hty <;> simp [ht, hty, supportedTypes]
  · obtain ⟨ht, hf, hp⟩ := mem_groupOverlays h
    obtain ⟨g, hg, hty⟩ := (geometry_of_family o.feature).2.2.1.1 hp
    refine ⟨hf, g, hg, ?_⟩
    simp [ht, hty, supportedTypes]
  · obtain ⟨ht, hf, hp⟩ := mem_groupOverlays h
    obtain ⟨g, hg, hty⟩ := (geometry_of_family o.feature).2.2.2.1 hp
    refine ⟨hf, g, hg, ?_⟩
    simp [ht, hty, supportedTypes]

theorem overlaysOf_eq (features : List Feature) :
    overlaysOf features = groupOf 0 features ++ groupOf 1 features
      ++ (groupOf 2 features ++ groupOf 3 features) := by
  simp only [overlaysOf, makeOverlays_eq, groupOf]

theorem groupRank_of_mem_groupOf {k : Nat} {features : List Feature} {o : Overlay}
    (h : o ∈ groupOf k features) : groupRank o = k := by
  match k with
  | 0 => simp [groupRank, (mem_groupOverlays h).1]
  | 1 => simp [groupRank, (mem_groupOverlays h).1]
  | 2 => simp [groupRank, (mem_groupOverlays h).1, (mem_groupOverlays h).2.2]
  | 3 =>
    simp [groupRank, (mem_groupOverlays h).1,
      isMultiPolygon_not_isPolygon (mem_groupOverlays h).2.2]
  | k + 4 => simp [groupOf] at h

theorem groupSequence_groupOf (k j : Nat) (features : List Feature) :
    groupSequence k (groupOf j features) = if j = k then groupOf j features else [] := by
  split_ifs with hjk
  · exact List.filter_eq_self.2 fun o ho => by
      simp [groupRank_of_mem_groupOf ho, hjk]
  · exact List.filter_eq_nil_iff.2 fun o ho => by
      simp [groupRank_of_mem_groupOf ho, hjk]

theorem groupSequence_overlaysOf (k : Nat) (features : List Feature) :
    groupSequence k (overlaysOf features) = groupOf k features := by
  have happ : ∀ xs ys : List Overlay,
      groupSequence k (xs ++ ys) = groupSequence k xs ++ groupSequence k ys :=
    fun xs ys => List.filter_append xs ys
  rw [overlaysOf_eq, happ, happ, happ, groupSequence_groupOf, groupSequence_groupOf,
    groupSequence_groupOf, groupSequence_groupOf]
  match k with
  | 0 => simp
  | 1 => simp
  | 2 => simp
  | 3 => simp
  | k + 4 => simp [groupOf]

theorem groupOverlays_append (p : Feature → Bool) (type : String) (xs ys : List Feature) :
    groupOverlays p type (xs ++ ys) = groupOverlays p type xs ++ groupOverlays p type ys := by
  simp [groupOverlays]

theorem groupOf_append (k : Nat) (xs ys : List Feature) :
    groupOf k (xs ++ ys) = groupOf k xs ++ groupOf k ys := by
  match k with
  | 0 => exact groupOverlays_append _ _ xs ys
  | 1 => exact groupOverlays_append _ _ xs ys
  | 2 => exact groupOverlays_append _ _ xs ys
  | 3 => exact groupOverlays_append _ _ xs ys
  | k + 4 => rfl

theorem groupOf_eq_flatMap (k : Nat) (features : List Feature) :
    groupOf k features = features.flatMap fun f => groupOf k [f] := by
  induction features with
  | nil =>
    match k with
    | 0 => rfl
    | 1 => rfl
    | 2 => rfl
    | 3 => rfl
    | k + 4 => rfl
  | cons f fs ih =>
    rw [List.flatMap_cons, ← ih]
    exact groupOf_append k [f] fs

/-- C15: source order is kept inside each of the four groups: the group's overlay
sequence in the output for `xs ++ ys` is the group's sequence for `xs` followed
by the group's sequence for `ys`, and the group's sequence for a feature list is
the concatenation, in input order of the features, of the group's overlays each
feature gives on its own (so one feature's overlays are contiguous and in the
order of its sub-geometries). -/
theorem source_order_within_groups (xs ys : List Feature) (k : Nat) :
    (makeOverlays (xs ++ ys) = .ok (overlaysOf (xs ++ ys))
        ∧ makeOverlays xs = .ok (overlaysOf xs) ∧ makeOverlays ys = .ok (overlaysOf ys))
      ∧ groupSequence k (overlaysOf (xs ++ ys))
          = groupSequence k (overlaysOf xs) ++ groupSequence k (overlaysOf ys)
      ∧ groupSequence k (overlaysOf xs)
          = xs.flatMap fun f => groupSequence k (overlaysOf [f]) := by
  have hok : ∀ fs, makeOverlays fs = .ok (overlaysOf fs) := fun fs => by
    simp only [overlaysOf, makeOverlays_eq]
  refine ⟨⟨hok _, hok _, hok _⟩, ?_, ?_⟩
  · simp only [groupSequence_overlaysOf, groupOf_append]
  · simp only [groupSequence_overlaysOf]
    exact groupOf_eq_flatMap k xs

theorem length_unitOverlays (f : Feature) : (unitOverlays f).length = unitCount f := by
  obtain ⟨g, p⟩ := f
  cases g with
  | none => rfl
  | some g => cases g <;> simp [unitOverlays, unitCount]

theorem length_groupOf_singleton (f : Feature) :
    (groupOf 0 [f]).length + (groupOf 1 [f]).length
      + ((groupOf 2 [f]).length + (groupOf 3 [f]).length) = unitCount f := by
  rw [← length_unitOverlays]
  obtain ⟨g, p⟩ := f
  cases g with
  | none => rfl
  | some g =>
    cases g with
    | Unsupported t ht =>
      have := not_supported_ne ht
      simp [groupOf, groupOverlays, isPointFamily, isLineFamily, isPolygon, isMultiPolygon,
        Geometry.type, this, unitOverlays]
    | _ =>
      simp [groupOf, groupOverlays, isPointFamily, isLineFamily, isPolygon, isMultiPolygon,
        Geometry.type, unitOverlays]

theorem length_overlaysOf (features : List Feature) :
    (overlaysOf features).length = (features.map unitCount).sum := by
  induction features with
  | nil => rfl
  | cons f fs ih =>
    have hcons : ∀ k, groupOf k (f :: fs) = groupOf k [f] ++ groupOf k fs :=
      fun k => groupOf_append k [f] fs
    rw [overlaysOf_eq] at ih
    rw [overlaysOf_eq, hcons, hcons, hcons, hcons, List.map_cons, List.sum_cons, ← ih,
      ← length_groupOf_singleton f]
    simp only [List.length_append]
    omega

/-- C16: one overlay per geometry unit: the length of `makeOverlays(features)` is
the sum over the features of 1 for a Point, the number of coordinates for a
MultiPoint, 1 for a LineString, the number of sub-lines for a MultiLineString, 1
for a Polygon, the number of sub-polygons for a MultiPolygon, and 0 for a feature
with missing or unsupported geometry. -/
theorem one_overlay_per_unit (features : List Feature) :
    ∃ os, makeOverlays features = .ok os ∧ os.length = (features.map unitCount).sum := by
  refine ⟨overlaysOf features, ?_, length_overlaysOf features⟩
  simp only [overlaysOf, makeOverlays_eq]

theorem mem_groupOverlays_unit {p : Feature → Bool} {type : String} {features : List Feature}
    {o : Overlay} (h : o ∈ groupOverlays p type features) :
    ∃ f u, u ∈ unitOverlays f ∧ o = withType type u ∧ p f = true := by
  simp only [groupOverlays, List.mem_map, List.mem_flatMap, List.mem_filter] at h
  obtain ⟨u, ⟨f, ⟨_, hp⟩, hu⟩, rfl⟩ := h
  exact ⟨f, u, hu, rfl, hp⟩

theorem holes_of_point_line_unit {f : Feature} {u : Overlay} (hu : u ∈ unitOverlays f)
    (hf : isPointFamily f = true ∨ isLineFamily f = true) : u.holes = none := by
  obtain ⟨g, p⟩ := f
  cases g with
  | none => simp [unitOverlays] at hu
  | some g =>
    cases g with
    | Point c => simp [unitOverlays] at hu; rw [hu]
    | MultiPoint cs => simp [unitOverlays] at hu; obtain ⟨_, _, rfl⟩ := hu; rfl
    | LineString l => simp [unitOverlays] at hu; rw [hu]
    | MultiLineString ls => simp [unitOverlays] at hu; obtain ⟨_, _, rfl⟩ := hu; rfl
    | Polygon rings => simp [isPointFamily, isLineFamily, Geometry.type] at hf
    | MultiPolygon ps => simp [isPointFamily, isLineFamily, Geometry.type] at hf
    | Unsupported t ht => simp [unitOverlays] at hu

theorem ringGroup_of_polygon_unit {f : Feature} {u : Overlay} (hu : u ∈ unitOverlays f)
    (hf : isPolygon f = true ∨ isMultiPolygon f = true) :
    ∃ rings, u = ringGroupOverlay f rings
      ∧ (f.geometry = some (.Polygon rings)
        ∨ ∃ ps, f.geometry = some (.MultiPolygon ps) ∧ rings ∈ ps) := by
  obtain ⟨g, p⟩ := f
  cases g with
  | none => simp [unitOverlays] at hu
  | some g =>
    cases g with
    | Polygon rings =>
      simp only [unitOverlays, List.mem_singleton] at hu
      exact ⟨rings, hu, Or.inl rfl⟩
    | MultiPolygon ps =>
      simp only [unitOverlays, List.mem_map] at hu
      obtain ⟨rings, hr, rfl⟩ := hu
      exact ⟨rings, rfl, Or.inr ⟨ps, rfl, hr⟩⟩
    | Unsupported t ht => simp [unitOverlays] at hu
    | _ => simp [isPolygon, isMultiPolygon, Geometry.type] at hf

/-- C17: an overlay of `makeOverlays(features)` that has a holes field has type
'polygon', comes from a Polygon or a sub-polygon of a MultiPolygon with more than
one ring, and its holes is the non-empty sequence of that ring group's rings
after the first, transformed; overlays of type 'point' and 'polyline' have no
holes field. -/
theorem holes_only_on_polygons (features : List Feature) :
    ∃ os, makeOverlays features = .ok os ∧ ∀ o ∈ os,
      (∀ h, o.holes = some h →
        o.type = some "polygon"
          ∧ ∃ rings : List (List Position), 1 < rings.length
            ∧ (o.feature.geometry = some (.Polygon rings)
              ∨ ∃ ps, o.feature.geometry = some (.MultiPolygon ps) ∧ rings ∈ ps)
            ∧ h = .array ((rings.drop 1).map makeLine)
            ∧ (rings.drop 1).map makeLine ≠ [])
        ∧ ((o.type = some "point" ∨ o.type = some "polyline") → o.holes = none) := by
  refine ⟨_, makeOverlays_eq features, ?_⟩
  intro o ho
  have hpl : ∀ (p : Feature → Bool) (t : String), o ∈ groupOverlays p t features →
      (∀ f, p f = true → isPointFamily f = true ∨ isLineFamily f = true) →
      o.holes = none := by
    intro p t h hp
    obtain ⟨f, u, hu, rfl, hpf⟩ := mem_groupOverlays_unit h
    exact (holes_of_point_line_unit hu (hp _ hpf) : u.holes = none)
  have hpg : ∀ (p : Feature → Bool), o ∈ groupOverlays p "polygon" features →
      (∀ f, p f = true → isPolygon f = true ∨ isMultiPolygon f = true) →
      (∀ h, o.holes = some h →
        o.type = some "polygon"
          ∧ ∃ rings : List (List Position), 1 < rings.length
            ∧ (o.feature.geometry = some (.Polygon rings)
              ∨ ∃ ps, o.feature.geometry = some (.MultiPolygon ps) ∧ rings ∈ ps)
            ∧ h = .array ((rings.drop 1).map makeLine)
            ∧ (rings.drop 1).map makeLine ≠ [])
        ∧ ((o.type = some "point" ∨ o.type = some "polyline") → o.holes = none) := by
    intro p h hp
    obtain ⟨f, u, hu, rfl, hpf⟩ := mem_groupOverlays_unit h
    obtain ⟨rings, rfl, hgeo⟩ := ringGroup_of_polygon_unit hu (hp _ hpf)
    constructor
    · intro hs hhs
      by_cases hlen : 1 < rings.length
      · refine ⟨rfl, rings, hlen, hgeo, ?_, ?_⟩
        · simpa [withType, ringGroupOverlay, hlen] using hhs.symm
        · simp only [ne_eq, List.map_eq_nil_iff, List.drop_eq_nil_iff]
          omega
      · simp [withType, ringGroupOverlay, hlen] at hhs
    · intro ht
      simp [withType] at ht
  rcases mem_makeOverlays (makeOverlays_eq features) ho with h | h | h | h
  · have hnone := hpl _ _ h fun f hf => Or.inl hf
    exact ⟨fun hs hhs => by simp [hnone] at hhs, fun _ => hnone⟩
  · have hnone := hpl _ _ h fun f hf => Or.inr hf
    exact ⟨fun hs hhs => by simp [hnone] at hhs, fun _ => hnone⟩
  · exact hpg _ h fun f hf => Or.inl hf
  · exact hpg _ h fun f hf => Or.inr hf

/-! ## Renderer: style defaults and the selection state machine -/

/-- C13: the locals the renderer destructures from a polygon feature's
properties: `highlightedFillColor` is the feature's own value when defined and
its `fillColor` otherwise, `highlightedStrokeColor` its own value when defined
and its `fillColor` (not its `strokeColor`) otherwise, `highlightedStrokeWidth`
its own value when defined and its `strokeWidth` otherwise, `tappable` its own
value when defined and `false` otherwise; the rendered polygon carries that
`tappable`. -/
theorem highlighted_style_defaults (p : Properties) (parse : String → JSValue) (props : Props)
    (feature : Feature) (coordinates : Coordinates) (holes : Option Coordinates) (index : Nat) :
    (destructure p).highlightedFillColor
        = (if p.highlightedFillColor = .undefined then p.fillColor else p.highlightedFillColor)
      ∧ (destructure p).highlightedStrokeColor
        = (if p.highlightedStrokeColor = .undefined then p.fillColor
            else p.highlightedStrokeColor)
      ∧ (destructure p).highlightedStrokeWidth
        = (if p.highlightedStrokeWidth = .undefined then p.strokeWidth
            else p.highlightedStrokeWidth)
      ∧ (destructure p).tappable
        = (if p.tappable = .undefined then .bool false else p.tappable)
      ∧ renderOverlay parse props
          { feature := feature, coordinates := coordinates, holes := holes, type := some "polygon" }
          index
        = some (.polygon index coordinates holes (renderedStyle parse props feature.properties)
            (if feature.properties.tappable = .undefined then .bool false
              else feature.properties.tappable)) := by
  refine ⟨rfl, rfl, rfl, rfl, ?_⟩
  simp [renderOverlay, destructure, JSValue.withDefault]

/-- C11: with a Point feature before two Polygon features and the polygon at
overlay index 2 selected, tapping it raises a `TypeError` in the un-highlight
step: `setSelectedIndex(null)` and `onPress(null)` are not reached, and two taps
on it from the initial state leave it selected. Tapping the selected polygon at
index 1 deselects it but un-highlights the primitive of overlay 2. -/
theorem deselect_fails_after_points :
    tap exampleParse exampleProps [examplePoint, examplePolygonA, examplePolygonB] (some 2) 2
        = some { effects := [], error := some .typeError }
      ∧ (runTaps exampleParse exampleProps [examplePoint, examplePolygonA, examplePolygonB]
          [2, 2]).selectedIndex = some 2
      ∧ tap exampleParse exampleProps [examplePoint, examplePolygonA, examplePolygonB] (some 1) 1
        = some { effects := [.setNativeProps 2 ⟨.string "red", .string "black", .number 3⟩,
                   .setSelectedIndex none, .onPress (some 1) none] } := by
  refine ⟨?_, ?_, ?_⟩ <;> decide

/-- The un-highlight step where the handle table is aligned at the selected
index. -/
theorem restoreStep_aligned (props : Props) (overlays : List Overlay) (overlayRefs : List Nat)
    (s : Nat) (selected : Overlay) (hs : overlays[s]? = some selected)
    (href : overlayRefs[s]? = some s) :
    restoreStep props overlays overlayRefs (some s)
      = { effects :=
            if highlightable selected.feature.properties then
              [.setNativeProps s
                { fillColor := selected.feature.properties.fillColor
                  strokeColor := props.strokeColor
                  strokeWidth := props.strokeWidth }]
            else []
          error := none } := by
  simp only [restoreStep, hs, setNativeProps, href, highlightable, destructure]
  split_ifs <;> rfl

/-- The deselect transition where the handle table is aligned at the tapped
index: tapping the selected polygon un-highlights it when it has a highlight,
calls `setSelectedIndex(null)` and invokes its `onPress` once, with `null`. -/
theorem onPress_deselect_aligned (props : Props) (overlays : List Overlay)
    (overlayRefs : List Nat) (overlay : Overlay) (i : Nat)
    (hi : overlays[i]? = some overlay) (href : overlayRefs[i]? = some i) :
    onPress props overlays overlayRefs (some i) overlay i
        = { effects :=
              (if highlightable overlay.feature.properties then
                [.setNativeProps i
                  { fillColor := overlay.feature.properties.fillColor
                    strokeColor := props.strokeColor
                    strokeWidth := props.strokeWidth }]
              else [])
              ++ [.setSelectedIndex none,
                  .onPress (destructure overlay.feature.properties).onPress none]
            error := none }
      ∧ nextSelectedIndex (some i) (onPress props overlays overlayRefs (some i) overlay i).effects
        = none := by
  have key : onPress props overlays overlayRefs (some i) overlay i
        = { effects :=
              (if highlightable overlay.feature.properties then
                [.setNativeProps i
                  { fillColor := overlay.feature.properties.fillColor
                    strokeColor := props.strokeColor
                    strokeWidth := props.strokeWidth }]
              else [])
              ++ [.setSelectedIndex none,
                  .onPress (destructure overlay.feature.properties).onPress none]
            error := none } := by
    simp only [onPress, restoreStep_aligned props overlays overlayRefs i overlay hi href,
      selectStep, deselectStep]
    simp [Outcome.andThen]
  refine ⟨key, ?_⟩
  rw [key]
  split_ifs <;> rfl

theorem mem_effects_andThen {a b : Outcome} {e : Effect} (h : e ∈ (a.andThen b).effects) :
    e ∈ a.effects ∨ e ∈ b.effects := by
  unfold Outcome.andThen at h
  cases ha : a.error with
  | none => simpa [ha] using h
  | some err => simp only [ha] at h; exact Or.inl h

theorem setSelectedIndex_of_mem_onPress {props : Props} {overlays : List Overlay}
    {overlayRefs : List Nat} {s : Option Nat} {overlay : Overlay} {i : Nat} {v : Option Nat}
    (h : Effect.setSelectedIndex v ∈ (onPress props overlays overlayRefs s overlay i).effects) :
    v = some i ∨ v = none := by
  rcases mem_effects_andThen h with h | h
  · obtain ⟨_, _, _, _, _, he⟩ := restoreStep_effects _ _ _ _ _ h
    cases he
  · rcases mem_effects_andThen h with h | h
    · simp only [selectStep] at h
      split_ifs at h
      · rcases mem_effects_andThen h with h | h
        · simp at h
          exact Or.inl h
        · rcases mem_effects_andThen h with h | h
          · simp only [setNativeProps] at h
            split at h <;> simp at h
          · split at h <;> simp at h
      · rcases mem_effects_andThen h with h | h
        · simp at h
          exact Or.inl h
        · simp at h
      · simp at h
    · simp only [deselectStep] at h
      split_ifs at h
      · simp at h
        exact Or.inr h
      · simp at h

theorem nextSelectedIndex_mem (s : Option Nat) (i : Nat) (es : List Effect)
    (h : ∀ v, Effect.setSelectedIndex v ∈ es → v = some i ∨ v = none) :
    nextSelectedIndex s es = s ∨ nextSelectedIndex s es = some i
      ∨ nextSelectedIndex s es = none := by
  induction es generalizing s with
  | nil => exact Or.inl rfl
  | cons e es ih =>
    have hes : ∀ v, Effect.setSelectedIndex v ∈ es → v = some i ∨ v = none :=
      fun v hv => h v (List.mem_cons_of_mem _ hv)
    cases e with
    | setNativeProps handle style => exact ih s hes
    | onPress cb arg => exact ih s hes
    | setSelectedIndex v =>
      have hv := h v (List.mem_cons_self _ _)
      rcases ih v hes with h1 | h1 | h1
      · rcases hv with hv | hv
        · exact Or.inr (Or.inl (h1.trans hv))
        · exact Or.inr (Or.inr (h1.trans hv))
      · exact Or.inr (Or.inl h1)
      · exact Or.inr (Or.inr h1)

theorem tap_eq_some {parse : String → JSValue} {props : Props} {features : List Feature}
    {s : Option Nat} {i : Nat} {out : Outcome} (h : tap parse props features s i = some out) :
    ∃ o, (overlaysOf features)[i]? = some o ∧ o.type = some "polygon"
      ∧ out = onPress props (overlaysOf features)
          (attachRefs (renderFrom parse props 0 (overlaysOf features))) s o i := by
  simp only [tap, Geojson, overlaysOf, makeOverlays_eq] at h ⊢
  split at h
  · cases h
  · rename_i o ho
    split_ifs at h with ht
    exact ⟨o, ho, ht, (Option.some.inj h).symm⟩

/-- C12: in every state reached from `selectedIndex = null` by a sequence of
taps on the children rendered for a feature list, `selectedIndex` is null or an
index of the overlay list whose overlay has type 'polygon'. -/
theorem selectedIndex_is_polygon (parse : String → JSValue) (props : Props)
    (features : List Feature) (taps : List Nat) :
    (∃ os, makeOverlays features = .ok os
      ∧ ((runTaps parse props features taps).selectedIndex = none
        ∨ ∃ i o, (runTaps parse props features taps).selectedIndex = some i
            ∧ os[i]? = some o ∧ o.type = some "polygon")) := by
  refine ⟨overlaysOf features, by simp only [overlaysOf, makeOverlays_eq], ?_⟩
  have step : ∀ (v : View) (i : Nat),
      (v.selectedIndex = none ∨ ∃ j o, v.selectedIndex = some j
          ∧ (overlaysOf features)[j]? = some o ∧ o.type = some "polygon") →
      ((tapView parse props features v i).selectedIndex = none
        ∨ ∃ j o, (tapView parse props features v i).selectedIndex = some j
            ∧ (overlaysOf features)[j]? = some o ∧ o.type = some "polygon") := by
    intro v i hv
    unfold tapView
    cases htap : tap parse props features v.selectedIndex i with
    | none => exact hv
    | some out =>
      obtain ⟨o, ho, ht, rfl⟩ := tap_eq_some htap
      rcases nextSelectedIndex_mem v.selectedIndex i _
          (fun w hw => setSelectedIndex_of_mem_onPress hw) with h | h | h
      · show nextSelectedIndex v.selectedIndex _ = none ∨
          ∃ j o', nextSelectedIndex v.selectedIndex _ = some j
            ∧ (overlaysOf features)[j]? = some o' ∧ o'.type = some "polygon"
        rw [h]
        exact hv
      · exact Or.inr ⟨i, o, h, ho, ht⟩
      · exact Or.inl h
  have run : ∀ (ts : List Nat) (v : View),
      (v.selectedIndex = none ∨ ∃ j o, v.selectedIndex = some j
          ∧ (overlaysOf features)[j]? = some o ∧ o.type = some "polygon") →
      ((ts.foldl (tapView parse props features) v).selectedIndex = none
        ∨ ∃ j o, (ts.foldl (tapView parse props features) v).selectedIndex = some j
            ∧ (overlaysOf features)[j]? = some o ∧ o.type = some "polygon") := by
    intro ts
    induction ts with
    | nil => exact fun v hv => hv
    | cons t ts ih => exact fun v hv => ih _ (step v t hv)
  refine run taps _ (Or.inl ?_)
  unfold mount
  cases Geojson parse props features <;> rfl

/-! ## Renderer: highlight invariant on polygon-only lists -/

theorem length_renderFrom (parse : String → JSValue) (props : Props) (k : Nat)
    (os : List Overlay) : (renderFrom parse props k os).length = os.length := by
  induction os generalizing k with
  | nil => rfl
  | cons o os ih => simp [renderFrom, ih]

theorem getElem?_renderFrom (parse : String → JSValue) (props : Props) (k : Nat)
    (os : List Overlay) (j : Nat) :
    (renderFrom parse props k os)[j]?
      = (os[j]?).map fun o => renderOverlay parse props o (k + j) := by
  induction os generalizing k j with
  | nil => simp [renderFrom]
  | cons o os ih =>
    cases j with
    | zero => simp [renderFrom]
    | succ j =>
      simp only [renderFrom, List.getElem?_cons_succ, ih]
      rw [Nat.add_right_comm, Nat.add_assoc]

theorem Geojson_eq (parse : String → JSValue) (props : Props) (features : List Feature) :
    Geojson parse props features = .ok
      { overlays := overlaysOf features
        children := renderFrom parse props 0 (overlaysOf features)
        overlayRefs := attachRefs (renderFrom parse props 0 (overlaysOf features)) } := by
  simp only [Geojson, overlaysOf, makeOverlays_eq]

theorem shownFill_set_ne (styles : List (Option Style)) (k j : Nat) (x : Option Style)
    (h : k ≠ j) : shownFill (styles.set k x) j = shownFill styles j := by
  simp only [shownFill, List.getElem?_set_ne h]

theorem shownFill_set_self (styles : List (Option Style)) (j : Nat) (style : Style)
    (h : j < styles.length) :
    shownFill (styles.set j (some style)) j = some style.fillColor := by
  simp only [shownFill, List.getElem?_set_self h]

theorem fillColor_of_highlightable (parse : String → JSValue) (props : Props) (p : Properties)
    (h : highlightable p = true) : (renderedStyle parse props p).fillColor = p.fillColor := by
  simp only [highlightable, Bool.and_eq_true] at h
  simp only [renderedStyle, JSValue.or, h.1, if_true]
  rfl

theorem highlightInvariant_mount (parse : String → JSValue) (props : Props)
    (features : List Feature) (hpoly : ∀ o ∈ overlaysOf features, o.type = some "polygon") :
    HighlightInvariant parse props (overlaysOf features) (mount parse props features) := by
  unfold HighlightInvariant
  simp only [mount, Geojson_eq]
  refine ⟨by simp [length_renderFrom], fun s hs => by simp at hs, ?_⟩
  intro j o hj _
  have ht : o.type = some "polygon" := hpoly o (List.getElem?_mem hj)
  simp [shownFill, getElem?_renderFrom, hj, renderOverlay, ht, nativeStyle]

theorem overlayRefs_aligned (parse : String → JSValue) (props : Props) (os : List Overlay)
    (hpoly : ∀ o ∈ os, o.type = some "polygon") (k : Nat) (hk : k < os.length) :
    (attachRefs (renderFrom parse props 0 os))[k]? = some k := by
  rw [attachRefs_renderFrom_polygons _ _ _ _ hpoly, List.getElem?_range' 0 1 hk]
  simp

theorem highlightInvariant_deselect (parse : String → JSValue) (props : Props)
    (os : List Overlay) (v : View) (o : Overlay) (i : Nat)
    (hv : HighlightInvariant parse props os v) (ho : os[i]? = some o)
    (hs : v.selectedIndex = some i) :
    HighlightInvariant parse props os
      { selectedIndex := none
        styles := List.foldl applyEffect v.styles
          ((if highlightable o.feature.properties then
              [Effect.setNativeProps i
                { fillColor := o.feature.properties.fillColor
                  strokeColor := props.strokeColor
                  strokeWidth := props.strokeWidth }]
            else [])
            ++ [.setSelectedIndex none,
                .onPress (destructure o.feature.properties).onPress none]) } := by
  obtain ⟨hlen, hsel, hfill⟩ := hv
  have hi : i < v.styles.length := by
    rw [hlen]; exact (List.getElem?_eq_some.1 ho).1
  by_cases hh : highlightable o.feature.properties = true
  · refine ⟨by simp [hh, applyEffect, hlen], fun s h => by simp at h, ?_⟩
    intro j o' hj _
    simp only [hh, if_true, List.singleton_append, List.foldl_cons, List.foldl_nil, applyEffect]
    by_cases hji : i = j
    · subst hji
      have : o' = o := Option.some.inj (hj.symm.trans ho)
      subst this
      rw [shownFill_set_self _ _ _ hi, fillColor_of_highlightable _ _ _ hh]
    · rw [shownFill_set_ne _ _ _ _ hji]
      exact hfill j o' hj (Or.inl fun h => hji (Option.some.inj (hs.symm.trans h)))
  · have hh' : highlightable o.feature.properties = false := by simpa using hh
    refine ⟨by simp [hh', applyEffect, hlen], fun s h => by simp at h, ?_⟩
    intro j o' hj _
    simp only [hh', Bool.false_eq_true, if_false, List.nil_append, List.foldl_cons,
      List.foldl_nil, applyEffect]
    by_cases hji : i = j
    · subst hji
      have : o' = o := Option.some.inj (hj.symm.trans ho)
      subst this
      exact hfill i o' hj (Or.inr hh')
    · exact hfill j o' hj (Or.inl fun h => hji (Option.some.inj (hs.symm.trans h)))

/-- After the un-highlight step on an aligned handle table every polygon shows
the fill colour it was rendered with. -/
theorem restoreStep_all_base (parse : String → JSValue) (props : Props) (os : List Overlay)
    (overlayRefs : List Nat) (v : View) (hv : HighlightInvariant parse props os v)
    (href : ∀ k, k < os.length → overlayRefs[k]? = some k) :
    (restoreStep props os overlayRefs v.selectedIndex).error = none
      ∧ (List.foldl applyEffect v.styles
          (restoreStep props os overlayRefs v.selectedIndex).effects).length = os.length
      ∧ ∀ j o, os[j]? = some o →
          shownFill (List.foldl applyEffect v.styles
              (restoreStep props os overlayRefs v.selectedIndex).effects) j
            = some (renderedStyle parse props o.feature.properties).fillColor := by
  obtain ⟨hlen, hsel, hfill⟩ := hv
  cases hs : v.selectedIndex with
  | none =>
    refine ⟨rfl, hlen, ?_⟩
    intro j o hj
    exact hfill j o hj (Or.inl (by simp [hs]))
  | some s =>
    have hslt : s < os.length := hsel s hs
    obtain ⟨selected, hsel'⟩ : ∃ selected, os[s]? = some selected :=
      ⟨os[s], List.getElem?_eq_getElem hslt⟩
    rw [restoreStep_aligned props os overlayRefs s selected hsel' (href s hslt)]
    by_cases hh : highlightable selected.feature.properties = true
    · refine ⟨rfl, by simp [hh, applyEffect, hlen], ?_⟩
      intro j o hj
      simp only [hh, if_true, List.foldl_cons, List.foldl_nil, applyEffect]
      by_cases hjs : s = j
      · subst hjs
        have : o = selected := Option.some.inj (hj.symm.trans hsel')
        subst this
        rw [shownFill_set_self _ _ _ (by rw [hlen]; exact hslt),
          fillColor_of_highlightable _ _ _ hh]
      · rw [shownFill_set_ne _ _ _ _ hjs]
        exact hfill j o hj (Or.inl fun h => hjs (Option.some.inj (hs.symm.trans h)))
    · have hh' : highlightable selected.feature.properties = false := by simpa using hh
      refine ⟨rfl, by simp [hh', hlen], ?_⟩
      intro j o hj
      simp only [hh', Bool.false_eq_true, if_false, List.foldl_nil]
      by_cases hjs : s = j
      · subst hjs
        have : o = selected := Option.some.inj (hj.symm.trans hsel')
        subst this
        exact hfill s o hj (Or.inr hh')
      · exact hfill j o hj (Or.inl fun h => hjs (Option.some.inj (hs.symm.trans h)))

theorem highlightInvariant_tapView (parse : String → JSValue) (props : Props)
    (features : List Feature) (hpoly : ∀ o ∈ overlaysOf features, o.type = some "polygon")
    (v : View) (i : Nat) (hv : HighlightInvariant parse props (overlaysOf features) v) :
    HighlightInvariant parse props (overlaysOf features) (tapView parse props features v i) := by
  unfold tapView
  cases htap : tap parse props features v.selectedIndex i with
  | none => exact hv
  | some out =>
    obtain ⟨o, ho, ht, rfl⟩ := tap_eq_some htap
    have hi : i < (overlaysOf features).length := (List.getElem?_eq_some.1 ho).1
    have href := overlayRefs_aligned parse props _ hpoly
    by_cases hs : v.selectedIndex = some i
    · obtain ⟨key, hnext⟩ := onPress_deselect_aligned props (overlaysOf features)
        (attachRefs (renderFrom parse props 0 (overlaysOf features))) o i ho (href i hi)
      simp only [hs, hnext]
      rw [key]
      exact highlightInvariant_deselect parse props _ v o i hv ho hs
    · obtain ⟨herr, hlen1, hbase⟩ := restoreStep_all_base parse props _ _ v hv href
      obtain ⟨key, hnext⟩ := onPress_select_aligned props (overlaysOf features)
        (attachRefs (renderFrom parse props 0 (overlaysOf features))) v.selectedIndex o i ho
        (href i hi) hs herr
      simp only [hnext]
      rw [key]
      simp only [List.foldl_append, List.foldl_cons, applyEffect]
      refine ⟨?_, fun s h => by cases h; exact hi, ?_⟩
      · split_ifs <;> simp [applyEffect, hlen1]
      · intro j o' hj hcond
        by_cases hji : i = j
        · subst hji
          have : o' = o := Option.some.inj (hj.symm.trans ho)
          subst this
          have hh : highlightable o'.feature.properties = false := by
            rcases hcond with h | h
            · exact absurd rfl h
            · exact h
          have hh2 : ((destructure o'.feature.properties).fillColor.truthy
              && (destructure o'.feature.properties).highlightedFillColor.strictNe
                (destructure o'.feature.properties).fillColor) = false := hh
          simp only [hh2, Bool.false_eq_true, if_false, List.foldl_nil]
          exact hbase i o' hj
        · split_ifs
          · simp only [List.foldl_cons, List.foldl_nil, applyEffect]
            rw [shownFill_set_ne _ _ _ _ hji]
            exact hbase j o' hj
          · exact hbase j o' hj

theorem highlightInvariant_runTaps (parse : String → JSValue) (props : Props)
    (features : List Feature) (hpoly : ∀ o ∈ overlaysOf features, o.type = some "polygon")
    (taps : List Nat) :
    HighlightInvariant parse props (overlaysOf features) (runTaps parse props features taps) := by
  have run : ∀ (ts : List Nat) (v : View),
      HighlightInvariant parse props (overlaysOf features) v →
      HighlightInvariant parse props (overlaysOf features)
        (ts.foldl (tapView parse props features) v) := by
    intro ts
    induction ts with
    | nil => exact fun v hv => hv
    | cons t ts ih =>
      exact fun v hv => ih _ (highlightInvariant_tapView parse props features hpoly v t hv)
  exact run taps _ (highlightInvariant_mount parse props features hpoly)

/-- C18: at most one polygon is highlighted. For a feature list whose overlays
are all polygons, after any sequence of taps on the freshly mounted component,
every polygon other than the one at `selectedIndex` shows the fill colour it was
rendered with; with `selectedIndex` null that is every polygon. -/
theorem at_most_one_highlighted (parse : String → JSValue) (props : Props)
    (features : List Feature) (taps : List Nat)
    (hpoly : ∀ o ∈ overlaysOf features, o.type = some "polygon") (j : Nat) (o : Overlay)
    (hj : (overlaysOf features)[j]? = some o)
    (hsel : (runTaps parse props features taps).selectedIndex ≠ some j) :
    makeOverlays features = .ok (overlaysOf features)
      ∧ shownFill (runTaps parse props features taps).styles j
        = some (renderedStyle parse props o.feature.properties).fillColor := by
  refine ⟨by simp only [overlaysOf, makeOverlays_eq], ?_⟩
  exact (highlightInvariant_runTaps parse props features hpoly taps).2.2 j o hj (Or.inl hsel)

/-- C18 at a concrete input: two polygons, the first tapped and then the second;
the first one, no longer selected, shows its own fill colour 'red' again. -/
theorem at_most_one_highlighted_witness :
    (runTaps exampleParse exampleProps [examplePolygonA, examplePolygonB] [0, 1]).selectedIndex
        = some 1
      ∧ shownFill (runTaps exampleParse exampleProps [examplePolygonA, examplePolygonB]
          [0, 1]).styles 0 = some (.string "red") :=
  ⟨by decide,
    (at_most_one_highlighted exampleParse exampleProps [examplePolygonA, examplePolygonB] [0, 1]
      (by decide) 0
      { feature := examplePolygonA, coordinates := exampleRing, type := some "polygon" }
      (by decide) (by decide)).2⟩

/-- C19: with a Point feature before a highlightable polygon and a polygon that
has a fill colour but no highlight colour, tapping the highlightable polygon
(overlay index 1) applies its highlighted style to the primitive of overlay 2,
the polygon without a highlight, which then shows 'blue'; tapping that polygon
next applies the un-highlight style of overlay 1 to its primitive again. -/
theorem plain_polygon_restyled_after_points :
    highlightable examplePolygonPlain.properties = false
      ∧ tap exampleParse exampleProps [examplePoint, examplePolygonA, examplePolygonPlain] none 1
        = some { effects := [.setSelectedIndex (some 1),
                   .setNativeProps 2 ⟨.string "blue", .string "red", .undefined⟩,
                   .onPress (some 1) (some examplePolygonA.properties)] }
      ∧ tap exampleParse exampleProps [examplePoint, examplePolygonA, examplePolygonPlain]
          (some 1) 2
        = some { effects := [.setNativeProps 2 ⟨.string "red", .string "black", .number 3⟩,
                   .setSelectedIndex (some 2)] }
      ∧ shownFill (runTaps exampleParse exampleProps
          [examplePoint, examplePolygonA, examplePolygonPlain] [1]).styles 2
        = some (.string "blue") := by
  refine ⟨?_, ?_, ?_, ?_⟩ <;> decide

/-- On a polygon-only overlay list the handler restyles only primitives of
polygons with a usable highlight, and invokes `onPress` with properties only for
a tapped polygon with a usable highlight. -/
theorem restyle_only_highlightable (parse : String → JSValue) (props : Props)
    (features : List Feature) (hpoly : ∀ o ∈ overlaysOf features, o.type = some "polygon")
    (v : View) (hv : HighlightInvariant parse props (overlaysOf features) v) (i : Nat)
    (out : Outcome) (htap : tap parse props features v.selectedIndex i = some out) :
    out.error = none
      ∧ (∀ handle style, Effect.setNativeProps handle style ∈ out.effects →
          ∃ o, (overlaysOf features)[handle]? = some o
            ∧ highlightable o.feature.properties = true)
      ∧ ∀ cb p, Effect.onPress cb (some p) ∈ out.effects →
          ∃ o, (overlaysOf features)[i]? = some o
            ∧ highlightable o.feature.properties = true ∧ p = o.feature.properties := by
  obtain ⟨o, ho, ht, rfl⟩ := tap_eq_some htap
  have hi : i < (overlaysOf features).length := (List.getElem?_eq_some.1 ho).1
  have href := overlayRefs_aligned parse props _ hpoly
  have hrestore : ∀ handle style, Effect.setNativeProps handle style
        ∈ (restoreStep props (overlaysOf features)
            (attachRefs (renderFrom parse props 0 (overlaysOf features))) v.selectedIndex).effects →
      ∃ o, (overlaysOf features)[handle]? = some o
        ∧ highlightable o.feature.properties = true := by
    intro handle style hmem
    cases hs : v.selectedIndex with
    | none => simp [hs, restoreStep] at hmem
    | some s =>
      have hslt : s < (overlaysOf features).length := hv.2.1 s hs
      obtain ⟨selected, hsel'⟩ : ∃ selected, (overlaysOf features)[s]? = some selected :=
        ⟨(overlaysOf features)[s], List.getElem?_eq_getElem hslt⟩
      rw [hs, restoreStep_aligned props _ _ s selected hsel' (href s hslt)] at hmem
      by_cases hh : highlightable selected.feature.properties = true
      · simp only [hh, if_true, List.mem_singleton, Effect.setNativeProps.injEq] at hmem
        exact ⟨selected, by rw [hmem.1]; exact hsel', hh⟩
      · simp [hh] at hmem
  by_cases hs : v.selectedIndex = some i
  · obtain ⟨key, -⟩ := onPress_deselect_aligned props (overlaysOf features)
      (attachRefs (renderFrom parse props 0 (overlaysOf features))) o i ho (href i hi)
    rw [hs, key]
    refine ⟨rfl, ?_, ?_⟩
    · intro handle style hmem
      by_cases hh : highlightable o.feature.properties = true
      · simp only [hh, if_true, List.singleton_append, List.mem_cons, List.mem_singleton,
          Effect.setNativeProps.injEq, List.not_mem_nil, or_false, reduceCtorEq] at hmem
        exact ⟨o, by rw [hmem.1]; exact ho, hh⟩
      · simp [hh] at hmem
    · intro cb p hmem
      by_cases hh : highlightable o.feature.properties = true <;> simp [hh] at hmem
  · obtain ⟨herr, -, -⟩ := restoreStep_all_base parse props _ _ v hv href
    obtain ⟨key, -⟩ := onPress_select_aligned props (overlaysOf features)
      (attachRefs (renderFrom parse props 0 (overlaysOf features))) v.selectedIndex o i ho
      (href i hi) hs herr
    rw [key]
    have hh2 : ((destructure o.feature.properties).fillColor.truthy
        && (destructure o.feature.properties).highlightedFillColor.strictNe
          (destructure o.feature.properties).fillColor) = highlightable o.feature.properties :=
      rfl
    simp only [hh2]
    refine ⟨trivial, ?_, ?_⟩
    · intro handle style hmem
      rcases List.mem_append.1 hmem with h | h
      · exact hrestore handle style h
      · by_cases hh : highlightable o.feature.properties = true
        · simp only [hh, if_true, List.mem_cons, List.mem_singleton,
            Effect.setNativeProps.injEq, List.not_mem_nil, or_false, reduceCtorEq,
            false_or] at h
          exact ⟨o, by rw [h.1]; exact ho, hh⟩
        · simp [hh] at h
    · intro cb p hmem
      rcases List.mem_append.1 hmem with h | h
      · obtain ⟨_, _, _, _, _, he⟩ := restoreStep_effects _ _ _ _ _ h
        cases he
      · by_cases hh : highlightable o.feature.properties = true
        · simp only [hh, if_true, List.mem_cons, List.mem_singleton, Effect.onPress.injEq,
            List.not_mem_nil, or_false, reduceCtorEq, false_or, Option.some.injEq] at h
          exact ⟨o, ho, hh, h.2⟩
        · simp [hh] at h

end RNMaps
